import Mathlib

/-!
Verification development for the FourNiner region-construction pipeline
(src/region-processor.js and src/batch-process.js).

Modelling conventions.

Numbers: the JavaScript source computes with IEEE doubles; the embedding
uses exact rationals for all arithmetic the source performs directly
(sums, means, comparisons).  Calls into external libraries and into
transcendental math (turf.center, turf.convex, turf.buffer,
turf.booleanPointInPolygon, the haversine distance and the compass
bearing, both built from sin, cos and atan2) are modelled as oracle
parameters: the algorithms under verification only ever compare or
propagate their results, so every theorem quantifies over the oracle
unless a concrete instance is being evaluated.

Randomness: Math.random appears only in the k-means seeding of
splitCluster (rejection-sampled distinct point indices).  The embedding
receives the chosen indices from a pick oracle indexed by a call
counter, so every possible random execution corresponds to some oracle.

Loops: while loops of the source are embedded as fuel-indexed structural
recursions.  The merge loop of adjustClusterCount removes exactly one
cluster per iteration, so it is run with fuel equal to the list length
and the zero-fuel case coincides with the loop exit on the empty list.
The split loop of adjustClusterCount genuinely need not terminate
(see the development around claim C1), so its fuel is a parameter and
exhaustion is reported as a distinguished diverge outcome: a source run
that terminates is reproduced by every sufficiently large fuel value.
-/

namespace FourNiner

/-- A geographic coordinate pair stored the way the source stores GeoJSON
coordinates: (longitude, latitude). -/
abbrev Pt : Type := ℚ × ℚ

/-- A point cluster as built by the source: a numeric id, the member
points, and the size field set at creation time (the source never
updates size after merges, and neither does the embedding). -/
structure Cluster (α : Type) where
  id : ℤ
  points : List α
  size : ℕ
deriving DecidableEq

/-- Oracle bundle for the external capabilities the pipeline consumes:
coord projects a stored point to its coordinates (the source reads
geometry.coordinates), dist stands for haversineDistance
(region-processor.js:463), and centerF stands for turf.center applied to
a FeatureCollection of two or more points (region-processor.js:510). -/
structure Geo (α : Type) where
  coord : α → Pt
  dist : Pt → Pt → ℚ
  centerF : List Pt → Pt

/-- Index selection replicating the recurring source pattern: start with
best index 0 and minimum Infinity, scan left to right, replace the best
index only on a strictly smaller value.  The accumulator form carries
the current best index, its value, and the index of the next element. -/
def argminFirstAux (best : ℕ) (bestD : ℚ) (k : ℕ) : List ℚ → ℕ
  | [] => best
  | d :: ds =>
    if d < bestD then argminFirstAux k d (k + 1) ds
    else argminFirstAux best bestD (k + 1) ds

/-- Index of the first strict minimum of a list of distances; 0 on the
empty list (the source then keeps its initial index 0 or null guard). -/
def argminFirst : List ℚ → ℕ
  | [] => 0
  | d :: ds => argminFirstAux 0 d 1 ds

theorem argminFirstAux_spec (ds : List ℚ) : ∀ (best : ℕ) (bestD : ℚ) (k : ℕ),
    (argminFirstAux best bestD k ds = best ∧ ∀ d ∈ ds, bestD ≤ d) ∨
    (∃ j, j < ds.length ∧ argminFirstAux best bestD k ds = k + j ∧
      ds.getD j 0 ≤ bestD ∧ ∀ d ∈ ds, ds.getD j 0 ≤ d) := by
  induction ds with
  | nil => intro best bestD k; left; exact ⟨rfl, by simp⟩
  | cons d tl ih =>
    intro best bestD k
    by_cases hd : d < bestD
    · simp only [argminFirstAux, if_pos hd]
      rcases ih k d (k + 1) with ⟨heq, hall⟩ | ⟨j, hj, heq, hle, hall⟩
      · right
        refine ⟨0, by simp, by simpa using heq, ?_, ?_⟩
        · simpa using le_of_lt hd
        · intro e he
          rcases List.mem_cons.mp he with rfl | he
          · simp
          · simpa using hall e he
      · right
        refine ⟨j + 1, by simpa using hj, ?_, ?_, ?_⟩
        · rw [heq]; omega
        · have h1 : (d :: tl).getD (j + 1) 0 = tl.getD j 0 := by simp
          rw [h1]; exact le_of_lt (lt_of_le_of_lt hle hd)
        · intro e he
          have h1 : (d :: tl).getD (j + 1) 0 = tl.getD j 0 := by simp
          rw [h1]
          rcases List.mem_cons.mp he with rfl | he
          · exact hle
          · exact hall e he
    · simp only [argminFirstAux, if_neg hd]
      push_neg at hd
      rcases ih best bestD (k + 1) with ⟨heq, hall⟩ | ⟨j, hj, heq, hle, hall⟩
      · left
        refine ⟨heq, ?_⟩
        intro e he
        rcases List.mem_cons.mp he with rfl | he
        · exact hd
        · exact hall e he
      · right
        refine ⟨j + 1, by simpa using hj, ?_, ?_, ?_⟩
        · rw [heq]; omega
        · have h1 : (d :: tl).getD (j + 1) 0 = tl.getD j 0 := by simp
          rw [h1]; exact hle
        · intro e he
          have h1 : (d :: tl).getD (j + 1) 0 = tl.getD j 0 := by simp
          rw [h1]
          rcases List.mem_cons.mp he with rfl | he
          · exact le_trans hle hd
          · exact hall e he

theorem argminFirst_spec (ds : List ℚ) (h : ds ≠ []) :
    argminFirst ds < ds.length ∧ ∀ d ∈ ds, ds.getD (argminFirst ds) 0 ≤ d := by
  match ds, h with
  | d :: tl, _ =>
    simp only [argminFirst]
    rcases argminFirstAux_spec tl 0 d 1 with ⟨heq, hall⟩ | ⟨j, hj, heq, hle, hall⟩
    · rw [heq]
      refine ⟨by simp, ?_⟩
      intro e he
      rcases List.mem_cons.mp he with rfl | he
      · simp
      · simpa using hall e he
    · rw [heq]
      have hk : 1 + j = j + 1 := by omega
      rw [hk]
      refine ⟨by simpa using hj, ?_⟩
      intro e he
      have hget : (d :: tl).getD (j + 1) 0 = tl.getD j 0 := by simp
      rw [hget]
      rcases List.mem_cons.mp he with rfl | he
      · exact hle
      · exact hall e he

variable {α : Type}

/-- Shallow embedding of calculateClusterCenter
(region-processor.js:493-514).  Returns none exactly where the source
throws, on an empty points array; a single point is its own center;
otherwise the source delegates to turf.center, modelled by the centerF
oracle on the member coordinates. -/
def calculateClusterCenter (G : Geo α) : List α → Option Pt
  | [] => none
  | [p] => some (G.coord p)
  | ps => some (G.centerF (ps.map G.coord))

/-- Centers of a cluster list: none as soon as any cluster is empty,
mirroring the source loops that compute calculateClusterCenter per
cluster and propagate its exception. -/
def centersOf (G : Geo α) : List (Cluster α) → Option (List Pt)
  | [] => some []
  | c :: tl =>
    match calculateClusterCenter G c.points, centersOf G tl with
    | some ctr, some l => some (ctr :: l)
    | _, _ => none

/-- The nearest-cluster scan of the merge loop
(region-processor.js:539-554): the source computes every remaining
cluster center inside the loop (throwing on an empty cluster, hence
Option) and keeps the first index of strictly minimal distance. -/
def nearestClusterIndex (G : Geo α) (sc : Pt) (cs : List (Cluster α)) : Option ℕ :=
  match centersOf G cs with
  | none => none
  | some centers => some (argminFirst (centers.map (fun c => G.dist sc c)))

/-- One iteration of the merge loop of adjustClusterCount
(region-processor.js:528-558) after the head cluster has been shifted:
find the remaining cluster with the nearest centroid and append the
shifted cluster points to it.  none where the source would throw. -/
def mergeStep (G : Geo α) (s : Cluster α) (rest : List (Cluster α)) :
    Option (List (Cluster α)) :=
  match calculateClusterCenter G s.points with
  | none => none
  | some sc =>
    match nearestClusterIndex G sc rest with
    | none => none
    | some i => some (rest.modify (fun c => { c with points := c.points ++ s.points }) i)

/-- The merge while-loop of adjustClusterCount
(region-processor.js:528-558), run on fuel equal to the current list
length: every iteration removes exactly one cluster, so the zero-fuel
case is reached only on the empty list, where the source loop guard is
false as well and the list is returned unchanged. -/
def mergeLoop (G : Geo α) (target : ℕ) : ℕ → List (Cluster α) → Option (List (Cluster α))
  | 0, cs => some cs
  | fuel + 1, cs =>
    if target < cs.length then
      match cs with
      | [] => some []
      | s :: rest =>
        if rest.isEmpty then some [s]
        else
          match mergeStep G s rest with
          | none => none
          | some cs2 => mergeLoop G target fuel cs2
    else some cs

/-- The stable ascending-size sort performed once at the top of
adjustClusterCount (region-processor.js:525); the source comparator is
a.points.length - b.points.length and Array.prototype.sort is required
stable by the language.  A stable sort of a list under a total
preorder is unique, and insertion sort is stable, so insertion sort is
the faithful embedding (it also evaluates by kernel reduction, which
the well-founded merge sort of the library does not). -/
def sortBySizeAsc (cs : List (Cluster α)) : List (Cluster α) :=
  cs.insertionSort (fun a b => a.points.length ≤ b.points.length)

/-- The stable descending-size sort performed at each split-loop
iteration (region-processor.js:563). -/
def sortBySizeDesc (cs : List (Cluster α)) : List (Cluster α) :=
  cs.insertionSort (fun a b => b.points.length ≤ a.points.length)

/-- One k-means assignment pass (region-processor.js:622-640): each
point goes to the first centroid of strictly minimal distance. -/
def kmeansAssign (G : Geo α) (centroids : List Pt) (pts : List α) : List ℕ :=
  pts.map (fun p => argminFirst (centroids.map (fun c => G.dist (G.coord p) c)))

/-- The centroid update of splitCluster (region-processor.js:653-672):
per centroid index, the coordinate mean of the points assigned to it,
leaving the centroid unchanged when no point is assigned. -/
def kmeansUpdate (G : Geo α) (k : ℕ) (pts : List α) (assignments : List ℕ)
    (centroids : List Pt) : List Pt :=
  (List.range k).map (fun i =>
    let members := ((pts.zip assignments).filter (fun pa => pa.2 = i)).map (fun pa => G.coord pa.1)
    if members.length = 0 then centroids.getD i ((0 : ℚ), (0 : ℚ))
    else ((members.map Prod.fst).sum / (members.length : ℚ),
          (members.map Prod.snd).sum / (members.length : ℚ)))

/-- The bounded k-means loop of splitCluster (region-processor.js:613-675):
MAX_ITERATIONS is 10 in the source; assignments start all zero; the loop
exits when an assignment pass reproduces the previous assignments. -/
def kmeansLoop (G : Geo α) (k : ℕ) (pts : List α) :
    ℕ → List ℕ → List Pt → List ℕ
  | 0, assignments, _ => assignments
  | fuel + 1, assignments, centroids =>
    let newA := kmeansAssign G centroids pts
    if assignments = newA then newA
    else kmeansLoop G k pts fuel newA (kmeansUpdate G k pts newA centroids)

/-- Shallow embedding of splitCluster (region-processor.js:595-692).
The source seeds k distinct random point indices by rejection sampling;
the embedding receives those indices from the caller and returns none on
a seed list the rejection sampler could never produce (wrong arity,
repeated or out-of-range index).  Sub-clusters are rebuilt from the
final assignments, dropping empty ones, exactly as the source does. -/
def splitCluster (G : Geo α) (k : ℕ) (seeds : List ℕ) (c : Cluster α) :
    Option (List (Cluster α)) :=
  if seeds.length = k ∧ seeds.Nodup ∧ (∀ s ∈ seeds, s < c.points.length) then
    let centroids := (seeds.filterMap (fun s => c.points[s]?)).map G.coord
    let assignments := kmeansLoop G k c.points 10 (List.replicate c.points.length 0) centroids
    some ((List.range k).filterMap (fun i =>
      let clusterPoints := ((c.points.zip assignments).filter (fun pa => pa.2 = i)).map Prod.fst
      if clusterPoints.isEmpty then none
      else some ⟨(i : ℤ), clusterPoints, clusterPoints.length⟩))
  else none

/-- Result of the cluster balancer: ok for a normal return, err where the
source would throw (calculateClusterCenter on an empty cluster, or a seed
list the rejection sampler cannot produce), diverge for split-loop fuel
exhaustion; a source run that never terminates is the one whose embedding
diverges at every fuel. -/
inductive AdjRes (α : Type) where
  | ok (clusters : List (Cluster α))
  | err
  | diverge
deriving DecidableEq

/-- The split while-loop of adjustClusterCount
(region-processor.js:561-577): while below target, re-sort descending by
size, shift the largest cluster, push it back and stop if it has fewer
than 3 points, otherwise bisect it with k-means (k = 2) and append the
resulting sub-clusters.  ctr indexes the pick oracle call. -/
def splitPhase (G : Geo α) (picks : ℕ → List α → List ℕ) (target : ℕ) :
    ℕ → ℕ → List (Cluster α) → AdjRes α
  | 0, _, _ => AdjRes.diverge
  | fuel + 1, ctr, cs =>
    if cs.length < target then
      match sortBySizeDesc cs with
      | [] => AdjRes.err
      | l :: rest =>
        if l.points.length < 3 then AdjRes.ok (rest ++ [l])
        else
          match splitCluster G 2 (picks ctr l.points) l with
          | none => AdjRes.err
          | some parts => splitPhase G picks target fuel (ctr + 1) (rest ++ parts)
    else AdjRes.ok cs

/-- The sequential re-numbering at the end of adjustClusterCount
(region-processor.js:580-582). -/
def renumberClusters (cs : List (Cluster α)) : List (Cluster α) :=
  cs.enum.map (fun ic => { ic.2 with id := (ic.1 : ℤ) })

/-- Shallow embedding of adjustClusterCount (region-processor.js:523-586):
sort ascending by size once, run the merge loop while above target, run
the split loop while below target, re-number ids sequentially.  fuel
bounds only the split loop, whose iteration count the source does not
bound. -/
def adjustClusterCount (G : Geo α) (picks : ℕ → List α → List ℕ) (fuel : ℕ)
    (clusters : List (Cluster α)) (target : ℕ) : AdjRes α :=
  let sorted := sortBySizeAsc clusters
  match mergeLoop G target sorted.length sorted with
  | none => AdjRes.err
  | some merged =>
    if merged.length < target then
      match splitPhase G picks target fuel 0 merged with
      | AdjRes.ok final => AdjRes.ok (renumberClusters final)
      | r => r
    else AdjRes.ok (renumberClusters merged)

/-- Shallow embedding of findNeighbors (region-processor.js:427-454) for
a dataset of n features addressed by index: every other feature whose
coordinates differ from the query point (the source skips exact
coordinate matches as self) and whose distance is at most maxDistance.
The source returns index-distance records but only the indices are ever
read downstream, so the embedding returns the indices. -/
def findNeighbors {n : ℕ} (G : Geo (Fin n)) (maxD : ℚ) (p : Fin n) : List (Fin n) :=
  (List.finRange n).filter (fun j =>
    decide (G.coord j ≠ G.coord p ∧ G.dist (G.coord p) (G.coord j) ≤ maxD))

/-- The flood-fill queue loop of performDBSCANClustering
(region-processor.js:350-370), on explicit fuel.  Dequeue a neighbor;
if unvisited, mark visited and, when its own neighborhood is dense
enough, push its neighbors; independently, if not yet claimed by any
cluster, claim it and append it to the cluster under construction.
Every property proved about it holds at every fuel value; the queue
loop of the source terminates because neighbors are pushed only when a
point transitions to visited, which happens at most n times, so any
fuel of at least (n + 1) * (n + 1) reproduces a full source run. -/
def expandCluster {n : ℕ} (G : Geo (Fin n)) (maxD : ℚ) (minPts : ℕ) :
    ℕ → List (Fin n) → Finset (Fin n) → Finset (Fin n) → List (Fin n) →
    Finset (Fin n) × Finset (Fin n) × List (Fin n)
  | 0, _, visited, clustered, pts => (visited, clustered, pts)
  | _ + 1, [], visited, clustered, pts => (visited, clustered, pts)
  | fuel + 1, j :: queue, visited, clustered, pts =>
    if j ∈ visited then
      if j ∈ clustered then expandCluster G maxD minPts fuel queue visited clustered pts
      else expandCluster G maxD minPts fuel queue visited (insert j clustered) (pts ++ [j])
    else
      let nbrs := findNeighbors G maxD j
      let queue2 := if minPts ≤ nbrs.length then queue ++ nbrs else queue
      if j ∈ clustered then
        expandCluster G maxD minPts fuel queue2 (insert j visited) clustered pts
      else
        expandCluster G maxD minPts fuel queue2 (insert j visited) (insert j clustered) (pts ++ [j])

/-- The seeding pass of performDBSCANClustering
(region-processor.js:331-377): visit each feature in order; skip
visited ones; mark visited; if its neighborhood is too sparse leave it
as potential noise; otherwise flood-fill a new cluster seeded with it
and append the cluster (id = current cluster count). -/
def dbscanSeedPass {n : ℕ} (G : Geo (Fin n)) (maxD : ℚ) (minPts : ℕ) (fuel : ℕ) :
    List (Fin n) → Finset (Fin n) → Finset (Fin n) → List (Cluster (Fin n)) →
    Finset (Fin n) × List (Cluster (Fin n))
  | [], _, clustered, clusters => (clustered, clusters)
  | i :: rest, visited, clustered, clusters =>
    if i ∈ visited then dbscanSeedPass G maxD minPts fuel rest visited clustered clusters
    else
      let nbrs := findNeighbors G maxD i
      if nbrs.length < minPts then
        dbscanSeedPass G maxD minPts fuel rest (insert i visited) clustered clusters
      else
        let r := expandCluster G maxD minPts fuel nbrs (insert i visited) (insert i clustered) [i]
        dbscanSeedPass G maxD minPts fuel rest r.1 r.2.1
          (clusters ++ [⟨(clusters.length : ℤ), r.2.2, r.2.2.length⟩])

/-- The per-point body of the noise pass (region-processor.js:380-412):
an unclaimed point joins the cluster whose center (recomputed live, so
earlier noise assignments shift later centers) is nearest, first
strict minimum winning; with no cluster at all it seeds a singleton
cluster.  none where the source would throw on an empty cluster. -/
def assignNoisePoint {n : ℕ} (G : Geo (Fin n)) (i : Fin n)
    (clusters : List (Cluster (Fin n))) : Option (List (Cluster (Fin n))) :=
  if clusters.isEmpty then some [⟨(clusters.length : ℤ), [i], 1⟩]
  else
    match centersOf G clusters with
    | none => none
    | some centers =>
      some (clusters.modify (fun c => { c with points := c.points ++ [i] })
        (argminFirst (centers.map (fun c => G.dist (G.coord i) c))))

/-- The noise pass of performDBSCANClustering
(region-processor.js:380-413): each feature not claimed during the
seeding pass is assigned by assignNoisePoint; the claimed set is the
one frozen at the end of the seeding pass. -/
def dbscanNoisePass {n : ℕ} (G : Geo (Fin n)) (clustered : Finset (Fin n)) :
    List (Fin n) → List (Cluster (Fin n)) → Option (List (Cluster (Fin n)))
  | [], clusters => some clusters
  | i :: rest, clusters =>
    if i ∈ clustered then dbscanNoisePass G clustered rest clusters
    else
      match assignNoisePoint G i clusters with
      | none => none
      | some clusters2 => dbscanNoisePass G clustered rest clusters2

/-- Shallow embedding of performDBSCANClustering
(region-processor.js:322-417): the seeding pass over all features in
index order followed by the noise pass.  fuel bounds only the inner
flood-fill queue; (n + 1) * (n + 1) always suffices (see expandCluster)
and every theorem below quantifies over fuel. -/
def performDBSCANClustering {n : ℕ} (G : Geo (Fin n)) (maxD : ℚ) (minPts : ℕ)
    (fuel : ℕ) : Option (List (Cluster (Fin n))) :=
  let r := dbscanSeedPass G maxD minPts fuel (List.finRange n) ∅ ∅ []
  dbscanNoisePass G r.1 (List.finRange n) r.2

/-- Number of occurrences of point i across all clusters of a cluster
list, counting multiplicity both across and within clusters. -/
def memberCount {n : ℕ} (i : Fin n) (cs : List (Cluster (Fin n))) : ℕ :=
  (cs.map (fun c => c.points.count i)).sum

/-- A gazetteer record as parsed from cities5000.txt
(region-processor.js:48-67); population is parseInt or 0. -/
structure City where
  name : String
  lat : ℚ
  lng : ℚ
  countryCode : String
  population : ℕ
deriving DecidableEq

/-- The regionName record built by findCitiesInRegion
(region-processor.js:919-932). -/
structure RegionName where
  primaryName : String
  primaryPop : ℕ
  secondary : Option (String × ℕ)
  displayName : String
deriving DecidableEq

/-- Descending-population order used by the city sort
(region-processor.js:905); the source comparator is
b.population - a.population. -/
def popGE : City → City → Prop := fun a b => b.population ≤ a.population

instance : DecidableRel popGE := fun a b =>
  inferInstanceAs (Decidable (b.population ≤ a.population))

instance : IsTotal City popGE := ⟨fun a b => le_total b.population a.population⟩

instance : IsTrans City popGE := ⟨fun _ _ _ hab hbc => le_trans hbc hab⟩

/-- The country filter of findCitiesInRegion
(region-processor.js:867-871): keep cities whose code matches the
upper-cased country code, or all cities when none is given. -/
def countryCitiesOf (cities : List City) (countryCode : Option String) : List City :=
  match countryCode with
  | some cc => cities.filter (fun (c : City) => decide (c.countryCode = cc.toUpper))
  | none => cities

/-- The in-region filter of findCitiesInRegion
(region-processor.js:874-895): cities whose point-in-polygon test
returns true; a throwing test (none) skips the city. -/
def citiesInRegionOf (cities : List City) (inPoly : City → Option Bool)
    (countryCode : Option String) : List City :=
  (countryCitiesOf cities countryCode).filter (fun (c : City) => decide (inPoly c = some true))

/-- The stable descending-population sort of findCitiesInRegion
(region-processor.js:905). -/
def sortedCitiesOf (cities : List City) (inPoly : City → Option Bool)
    (countryCode : Option String) : List City :=
  (citiesInRegionOf cities inPoly countryCode).insertionSort popGE

/-- Shallow embedding of findCitiesInRegion
(region-processor.js:859-935).  The polygon test
turf.booleanPointInPolygon sits behind the inPoly oracle: some true for
inside, some false for outside, none where the call throws (the source
catches per city and skips it).  Empty gazetteer returns none; cities
are filtered by upper-cased country code when one is given; cities in
the region are sorted by descending population (stable); the secondary
city is kept only when the primary population is strictly below three
times the secondary population. -/
def findCitiesInRegion (cities : List City) (inPoly : City → Option Bool)
    (countryCode : Option String) : Option RegionName :=
  if cities.isEmpty then none
  else
    match sortedCitiesOf cities inPoly countryCode with
    | [] => none
    | primary :: restSorted =>
      let secondary : Option City :=
        match restSorted with
        | [] => none
        | second :: _ =>
          if primary.population < second.population * 3 then some second else none
      some { primaryName := primary.name
             primaryPop := primary.population
             secondary := secondary.map (fun (s : City) => (s.name, s.population))
             displayName :=
               match secondary with
               | some s => primary.name ++ " / " ++ s.name
               | none => primary.name }

/-- Outcome of one external hull-construction call: a returned value
(possibly null, which turf.convex yields on degenerate input such as
collinear points) or a thrown exception. -/
inductive HullRes (P : Type) where
  | ok (val : Option P)
  | thrown
deriving DecidableEq

/-- A region feature as assembled by clustersToPolygons
(region-processor.js:766-773); the yearTags metadata (getFrequentYears)
is elided because no claim mentions it and the embedded points carry no
year data. -/
structure Feature (P : Type) where
  polygon : P
  clusterID : ℤ
  pointCount : ℕ
  regionName : Option RegionName
deriving DecidableEq

/-- The per-cluster body of clustersToPolygons
(region-processor.js:710-779).  Outcomes: none models the return null
on line 752, which exits the whole function when both the convex hull
and the buffer fallback throw; some none models a skipped cluster
(fewer than 3 points, or a hull call returning a null polygon); some
(some f) is an emitted feature.  The buffer oracle receives the cluster
centroid and the point count, which determine the source buffer radius
max(20, sqrt(pointCount) * 5) / 111.  The centroid computation inside
the buffer branch sits inside the same catch, so its (unreachable for
3 or more points) failure also maps to none. -/
def processOneCluster {P : Type} (G : Geo α) (convexO : List Pt → HullRes P)
    (bufferO : Pt → ℕ → HullRes P) (cities : List City)
    (inPoly : City → P → Option Bool) (countryCode : Option String)
    (c : Cluster α) : Option (Option (Feature P)) :=
  if c.points.length < 3 then some none
  else
    let hull : Option (Option P) :=
      match convexO (c.points.map G.coord) with
      | HullRes.ok p => some p
      | HullRes.thrown =>
        match calculateClusterCenter G c.points with
        | none => none
        | some ctr =>
          match bufferO ctr c.points.length with
          | HullRes.ok p => some p
          | HullRes.thrown => none
    match hull with
    | none => none
    | some none => some none
    | some (some poly) =>
      some (some { polygon := poly
                   clusterID := c.id
                   pointCount := c.points.length
                   regionName := findCitiesInRegion cities (fun city => inPoly city poly) countryCode })

/-- Shallow embedding of clustersToPolygons
(region-processor.js:701-785): clusters are processed in order; a
skipped cluster contributes nothing; the return-null outcome of
processOneCluster aborts the whole conversion, discarding every feature
already built, exactly as the source return statement does. -/
def clustersToPolygons {P : Type} (G : Geo α) (convexO : List Pt → HullRes P)
    (bufferO : Pt → ℕ → HullRes P) (cities : List City)
    (inPoly : City → P → Option Bool) (countryCode : Option String) :
    List (Cluster α) → Option (List (Feature P))
  | [] => some []
  | c :: rest =>
    match processOneCluster G convexO bufferO cities inPoly countryCode c with
    | none => none
    | some none => clustersToPolygons G convexO bufferO cities inPoly countryCode rest
    | some (some f) =>
      (clustersToPolygons G convexO bufferO cities inPoly countryCode rest).map (fun fs => f :: fs)

/-- The eight compass octants of the directional labeler. -/
inductive Dir8 where
  | N | NE | E | SE | S | SW | W | NW
deriving DecidableEq

/-- A directional region code: C for the center region, otherwise an
octant with a 1-based distance rank, rendered by the source as the
string direction ++ toString rank.  The rendering is injective on these
codes, so distinctness is stated on the structured form. -/
inductive DirId where
  | C
  | dir (d : Dir8) (rank : ℕ)
deriving DecidableEq

/-- The octant bucketing of assignDirectionalIds
(region-processor.js:1027-1051), with 22.5-degree boundaries; any
bearing below 22.5 (including out-of-range values) lands in N via the
first branch and anything unmatched lands in NW via the final else.
The half-degree boundaries are written as integer ratios so that
concrete runs evaluate by kernel reduction; octant_boundaries checks
they are the decimal constants of the source. -/
def octantOf (b : ℚ) : Dir8 :=
  if Rat.divInt 675 2 ≤ b ∨ b < Rat.divInt 45 2 then Dir8.N
  else if Rat.divInt 45 2 ≤ b ∧ b < Rat.divInt 135 2 then Dir8.NE
  else if Rat.divInt 135 2 ≤ b ∧ b < Rat.divInt 225 2 then Dir8.E
  else if Rat.divInt 225 2 ≤ b ∧ b < Rat.divInt 315 2 then Dir8.SE
  else if Rat.divInt 315 2 ≤ b ∧ b < Rat.divInt 405 2 then Dir8.S
  else if Rat.divInt 405 2 ≤ b ∧ b < Rat.divInt 495 2 then Dir8.SW
  else if Rat.divInt 495 2 ≤ b ∧ b < Rat.divInt 585 2 then Dir8.W
  else Dir8.NW

theorem octant_boundaries :
    Rat.divInt 675 2 = (337.5 : ℚ) ∧ Rat.divInt 45 2 = (22.5 : ℚ) ∧
    Rat.divInt 135 2 = (67.5 : ℚ) ∧ Rat.divInt 225 2 = (112.5 : ℚ) ∧
    Rat.divInt 315 2 = (157.5 : ℚ) ∧ Rat.divInt 405 2 = (202.5 : ℚ) ∧
    Rat.divInt 495 2 = (247.5 : ℚ) ∧ Rat.divInt 585 2 = (292.5 : ℚ) := by
  norm_num [Rat.divInt]

/-- The 45-degree-boundary primary direction used when reassigning an
intercardinal candidate (region-processor.js:1150-1160). -/
def quadrantOf (b : ℚ) : Dir8 :=
  if 315 ≤ b ∨ b < 45 then Dir8.N
  else if 45 ≤ b ∧ b < 135 then Dir8.E
  else if 135 ≤ b ∧ b < 225 then Dir8.S
  else Dir8.W

/-- One entry of the directions array of assignDirectionalIds
(region-processor.js:1057-1064): the region (tracked by its index in
the input list, standing for the object reference of the source), its
bearing and distance from the country center, and its current
direction.  The primaryCardinal flag of the source is stored but never
read afterwards and is elided. -/
structure DItem where
  idx : ℕ
  bearing : ℚ
  distance : ℚ
  dir : Dir8
deriving DecidableEq

/-- First region in scan order whose current direction matches, as in
the directions.find calls (region-processor.js:1091-1141). -/
def findDir (items : List DItem) (d : Dir8) : Option DItem :=
  items.find? (fun it => decide (it.dir = d))

/-- Candidate chosen for an empty primary slot from its two adjacent
intercardinal octants (region-processor.js:1089-1143): when both exist
the nearer wins, ties going to the second (the source conditional
expression picks the second operand on a tie). -/
def pickCandidate (items : List DItem) (a b : Dir8) : Option DItem :=
  match findDir items a, findDir items b with
  | some x, some y => some (if x.distance < y.distance then x else y)
  | some x, none => some x
  | none, some y => some y
  | none, none => none

/-- The first fill of the four primary slots
(region-processor.js:1076-1084): scanning the distance-sorted items,
each of N, E, S, W is taken by the first item already in that octant. -/
def fillPrimaries : List DItem → (Dir8 → Option DItem) → (Dir8 → Option DItem)
  | [], m => m
  | it :: rest, m =>
    if (it.dir = Dir8.N ∨ it.dir = Dir8.E ∨ it.dir = Dir8.S ∨ it.dir = Dir8.W) ∧ m it.dir = none then
      fillPrimaries rest (fun d => if d = it.dir then some it else m d)
    else fillPrimaries rest m

/-- The candidate list for empty primary slots, in the slot order N, E,
S, W of the source (region-processor.js:1087-1143). -/
def reassignCandidates (sorted : List DItem) (m : Dir8 → Option DItem) : List DItem :=
  (if m Dir8.N = none then (pickCandidate sorted Dir8.NE Dir8.NW).toList else []) ++
  (if m Dir8.E = none then (pickCandidate sorted Dir8.NE Dir8.SE).toList else []) ++
  (if m Dir8.S = none then (pickCandidate sorted Dir8.SE Dir8.SW).toList else []) ++
  (if m Dir8.W = none then (pickCandidate sorted Dir8.SW Dir8.NW).toList else [])

/-- The reassignment fold (region-processor.js:1149-1168): for each
candidate in ascending distance order, compute its 45-degree primary
direction from its bearing; if that slot is still empty, move the item
into it (the source mutates the shared item object; the embedding
rewrites the item with that index) and fill the slot. -/
def applyReassign : List DItem → List DItem → (Dir8 → Option DItem) → List DItem
  | [], items, _ => items
  | c :: cs, items, m =>
    let nd := quadrantOf c.bearing
    if m nd = none then
      applyReassign cs
        (items.map (fun it => if it.idx = c.idx then { it with dir := nd } else it))
        (fun d => if d = nd then some { c with dir := nd } else m d)
    else applyReassign cs items m

/-- Insertion-ordered list of the distinct directions present, matching
the string-keyed object grouping of the source
(region-processor.js:1171-1177), whose key iteration order is key
insertion order. -/
def groupKeys (items : List DItem) : List Dir8 :=
  items.foldl (fun acc it => if it.dir ∈ acc then acc else acc ++ [it.dir]) []

/-- The directions array of assignDirectionalIds
(region-processor.js:1005-1065): every region except the center one,
with bearing, distance and initial octant. -/
def dirItemsOf (dist : Pt → Pt → ℚ) (bearingF : Pt → Pt → ℚ)
    (countryCenter : Pt) (centers : List Pt) (cIdx : ℕ) : List DItem :=
  (centers.enum.filter (fun ic => decide (ic.1 ≠ cIdx))).map (fun ic =>
    { idx := ic.1
      bearing := bearingF countryCenter ic.2
      distance := dist ic.2 countryCenter
      dir := octantOf (bearingF countryCenter ic.2) : DItem })

/-- The items after the distance sort, primary fill and reassignment
passes (region-processor.js:1067-1168). -/
def dirFinalOf (sorted : List DItem) : List DItem :=
  applyReassign
    ((reassignCandidates sorted (fillPrimaries sorted (fun _ => none))).insertionSort
      (fun a b => a.distance ≤ b.distance))
    sorted (fillPrimaries sorted (fun _ => none))

/-- The per-direction grouping, in-group distance sort and sequential
numbering (region-processor.js:1170-1192), emitting region index and
structured directional code. -/
def assignCodes (final : List DItem) : List (ℕ × DirId) :=
  (groupKeys final).flatMap (fun d =>
    ((final.filter (fun it => decide (it.dir = d))).insertionSort
      (fun a b => a.distance ≤ b.distance)).enum.map
        (fun kit => (kit.2.idx, DirId.dir d (kit.1 + 1))))

/-- Shallow embedding of assignDirectionalIds
(region-processor.js:943-1198) on the region centroids.  The turf.center
calls (per-region centroid and the country centroid of those centroids)
are external and enter as the centers list and the countryCenter point;
dist stands for haversineDistance and bearingF for calculateBearing
(region-processor.js:1210-1225), applied from the country center to a
region center.  The result associates each region (by input position)
with its directional code; an empty input gets no codes, as in the
source early return. -/
def assignDirectionalIds (dist : Pt → Pt → ℚ) (bearingF : Pt → Pt → ℚ)
    (countryCenter : Pt) (centers : List Pt) : List (ℕ × DirId) :=
  match centers with
  | [] => []
  | _ =>
    let cIdx := argminFirst (centers.map (fun c => dist c countryCenter))
    (cIdx, DirId.C) :: assignCodes (dirFinalOf
      ((dirItemsOf dist bearingF countryCenter centers cIdx).insertionSort
        (fun a b => a.distance ≤ b.distance)))

/-- Index of the first maximum of a list of naturals, scanning left to
right; 0 on the empty list. -/
def argmaxFirstAux (best : ℕ) (bestV : ℕ) (k : ℕ) : List ℕ → ℕ
  | [] => best
  | v :: vs =>
    if bestV < v then argmaxFirstAux k v (k + 1) vs
    else argmaxFirstAux best bestV (k + 1) vs

def argmaxFirst : List ℕ → ℕ
  | [] => 0
  | v :: vs => argmaxFirstAux 0 v 1 vs

/-- Index of the first minimum of a list of naturals, scanning left to
right; 0 on the empty list. -/
def argminFirstNatAux (best : ℕ) (bestV : ℕ) (k : ℕ) : List ℕ → ℕ
  | [] => best
  | v :: vs =>
    if v < bestV then argminFirstNatAux k v (k + 1) vs
    else argminFirstNatAux best bestV (k + 1) vs

def argminFirstNat : List ℕ → ℕ
  | [] => 0
  | v :: vs => argminFirstNatAux 0 v 1 vs

/-- Modelled from the spec: the repository contains no implementation of
the Zone Allocator quota formula (groupByClimateZone in
src/batch-process.js only groups points by climate code, and
createRegions in src/region-processor.js never consumes climate
quotas), so section 4.3 of the spec is modelled here from its text.
The score of a zone is percentage_of_total_points ^ 0.7 * 100, with the
percentage on the 0..100 scale; the 0.7 exponent forces real-number
arithmetic, hence this definition is noncomputable. -/
noncomputable def zoneScore (zonePts total : ℕ) : ℝ :=
  (100 * (zonePts : ℝ) / (total : ℝ)) ^ ((0.7 : ℝ)) * 100

/-- Modelled from the spec: the density cap of a zone,
ceil(zonePoints / 30), written with natural division so that concrete
instances evaluate; zoneCap_eq_ceil proves it is that ceiling. -/
def zoneCap (zonePts : ℕ) : ℕ := (zonePts + 29) / 30

theorem zoneCap_eq_ceil (p : ℕ) : zoneCap p = Nat.ceil ((p : ℚ) / 30) := by
  rcases Nat.eq_zero_or_pos p with rfl | hp
  · simp [zoneCap]
  · have hn : 0 < zoneCap p := by unfold zoneCap; omega
    have h30 : (0 : ℚ) < 30 := by norm_num
    symm
    rw [Nat.ceil_eq_iff (by omega)]
    refine ⟨?_, ?_⟩
    · rw [lt_div_iff₀ h30]
      have hnat : (zoneCap p - 1) * 30 < p := by unfold zoneCap at *; omega
      exact_mod_cast hnat
    · rw [div_le_iff₀ h30]
      have hnat : p ≤ zoneCap p * 30 := by unfold zoneCap at *; omega
      exact_mod_cast hnat

/-- Modelled from the spec: the initial quota of a zone,
round(score / totalScore * targetRegions), floored at 1 when the zone
has at least one point, then capped at the density cap. -/
noncomputable def initialQuota (target total : ℕ) (totalScore : ℝ) (zonePts : ℕ) : ℕ :=
  let base := (round (zoneScore zonePts total / totalScore * (target : ℝ))).toNat
  let floored := if 1 ≤ zonePts then max base 1 else base
  min floored (zoneCap zonePts)

/-- Sum of the current quotas of a zone state list of (points, quota)
pairs. -/
def quotaSum (zs : List (ℕ × ℕ)) : ℕ := (zs.map Prod.snd).sum

/-- Modelled from the spec: the zone receiving an extra region when the
quota sum is under target is the one with the most points among zones
still below their density cap; the spec does not fix a tie-break, so
the first such zone is taken. -/
def pickAddIdx (zs : List (ℕ × ℕ)) : Option ℕ :=
  let elig := zs.enum.filter (fun iz => decide (iz.2.2 < zoneCap iz.2.1))
  match elig with
  | [] => none
  | _ => (elig.getD (argmaxFirst (elig.map (fun iz => iz.2.1))) (0, 0, 0)).1

/-- Modelled from the spec: the zone losing a region when the quota sum
is over target is the one with the fewest points among zones above the
floor of 1; first such zone on a tie. -/
def pickRemoveIdx (zs : List (ℕ × ℕ)) : Option ℕ :=
  let elig := zs.enum.filter (fun iz => decide (1 < iz.2.2))
  match elig with
  | [] => none
  | _ => (elig.getD (argminFirstNat (elig.map (fun iz => iz.2.1))) (0, 0, 0)).1

/-- Modelled from the spec: while the quota sum is under target and some
zone is below its cap, add one region to the chosen zone; the loop
terminates because the sum grows toward target, and when no zone can
absorb a region the off-target sum is accepted. -/
def addLoop (target : ℕ) : ℕ → List (ℕ × ℕ) → List (ℕ × ℕ)
  | 0, zs => zs
  | fuel + 1, zs =>
    if quotaSum zs < target then
      match pickAddIdx zs with
      | none => zs
      | some i => addLoop target fuel (zs.modify (fun z => (z.1, z.2 + 1)) i)
    else zs

/-- Modelled from the spec: while the quota sum is over target and some
zone is above the floor of 1, remove one region from the chosen zone;
when every zone is at 1 the off-target sum is accepted. -/
def removeLoop (target : ℕ) : ℕ → List (ℕ × ℕ) → List (ℕ × ℕ)
  | 0, zs => zs
  | fuel + 1, zs =>
    if target < quotaSum zs then
      match pickRemoveIdx zs with
      | none => zs
      | some i => removeLoop target fuel (zs.modify (fun z => (z.1, z.2 - 1)) i)
    else zs

/-- Modelled from the spec: the Zone Allocator quota computation of spec
section 4.3 on a list of per-zone point counts — initial quotas
(score-proportional, floored, density-capped), then reconciliation of
the quota sum against the target.  The add and remove loops run on fuel
amounts that provably dominate their iteration counts (each add step
raises the sum by 1 toward target; each remove step lowers it by 1). -/
noncomputable def allocateZoneQuotas (target : ℕ) (zonePts : List ℕ) : List ℕ :=
  let total := zonePts.sum
  let totalScore := (zonePts.map (fun p => zoneScore p total)).sum
  let init := zonePts.map (fun p => (p, initialQuota target total totalScore p))
  let afterAdd := addLoop target (target + 1) init
  let afterRemove := removeLoop target (quotaSum afterAdd + 1) afterAdd
  afterRemove.map Prod.snd

section ConcreteInstances

/-- Concrete points for witnesses: coincident-free small configurations
realisable on the globe (longitudes 0, 1, 9 on the equator). -/
def pA : Pt := ((0 : ℚ), (0 : ℚ))

def pB : Pt := ((1 : ℚ), (0 : ℚ))

def pC : Pt := ((9 : ℚ), (0 : ℚ))

/-- A concrete distance oracle for witness evaluation: a lookup table
whose comparisons agree with the haversine distance on the equatorial
points pA, pB, pC (haversine there is monotone in longitude gap). -/
def dist0 : Pt → Pt → ℚ := fun p q =>
  if p = q then 0
  else if (p = pA ∧ q = pB) ∨ (p = pB ∧ q = pA) then 1
  else if (p = pB ∧ q = pC) ∨ (p = pC ∧ q = pB) then 8
  else 9

/-- A concrete center oracle for witness evaluation: the first point,
which agrees with turf.center on the clusters used in witnesses, whose
member points are all coincident. -/
def centerHead : List Pt → Pt := fun pts => pts.getD 0 pA

/-- Concrete oracle bundle over raw coordinate points. -/
def G0 : Geo Pt := { coord := id, dist := dist0, centerF := centerHead }

/-- Concrete seed-pick oracle: indices 0 and 1, valid for every points
list of length at least 2. -/
def picks0 : ℕ → List Pt → List ℕ := fun _ _ => [0, 1]

end ConcreteInstances

theorem length_sortBySizeAsc (cs : List (Cluster α)) :
    (sortBySizeAsc cs).length = cs.length := by
  simp [sortBySizeAsc, List.length_insertionSort]

theorem perm_sortBySizeAsc (cs : List (Cluster α)) :
    (sortBySizeAsc cs).Perm cs := List.perm_insertionSort _ cs

theorem mergeLoop_of_not_lt (G : Geo α) (target fuel : ℕ) (cs : List (Cluster α))
    (h : ¬ target < cs.length) : mergeLoop G target fuel cs = some cs := by
  cases fuel with
  | zero => rfl
  | succ fuel => simp [mergeLoop, h]

theorem map_points_enumFrom (cs : List (Cluster α)) : ∀ k : ℕ,
    ((List.enumFrom k cs).map (fun ic => { ic.2 with id := (ic.1 : ℤ) : Cluster α })).map
      Cluster.points = cs.map Cluster.points := by
  induction cs with
  | nil => intro k; rfl
  | cons c tl ih =>
    intro k
    simpa [List.enumFrom] using ih (k + 1)

theorem map_points_renumberClusters (cs : List (Cluster α)) :
    (renumberClusters cs).map Cluster.points = cs.map Cluster.points := by
  simpa [renumberClusters, List.enum] using map_points_enumFrom cs 0

theorem mergeLoop_succ (G : Geo α) (target fuel : ℕ) (cs : List (Cluster α)) :
    mergeLoop G target (fuel + 1) cs =
      if target < cs.length then
        match cs with
        | [] => some []
        | s :: rest =>
          if rest.isEmpty then some [s]
          else
            match mergeStep G s rest with
            | none => none
            | some cs2 => mergeLoop G target fuel cs2
      else some cs := rfl

theorem splitPhase_succ (G : Geo α) (picks : ℕ → List α → List ℕ)
    (target fuel ctr : ℕ) (cs : List (Cluster α)) :
    splitPhase G picks target (fuel + 1) ctr cs =
      if cs.length < target then
        match sortBySizeDesc cs with
        | [] => AdjRes.err
        | l :: rest =>
          if l.points.length < 3 then AdjRes.ok (rest ++ [l])
          else
            match splitCluster G 2 (picks ctr l.points) l with
            | none => AdjRes.err
            | some parts => splitPhase G picks target fuel (ctr + 1) (rest ++ parts)
      else AdjRes.ok cs := rfl

/-- Claim C8: feeding the Cluster Balancer a cluster list whose length
already equals the target neither merges nor splits; but the claim
states the output is the input with only ids changed, and the balancer
also re-sorts the list by ascending size, so an input that is not
already size-sorted comes back in a different order (with ids assigned
to the new positions).  This counterexample evaluates
adjustClusterCount on two clusters given largest-first: the output is
the re-sorted list, not the input with renumbered ids. -/
theorem claim_C8_counterexample :
    adjustClusterCount G0 picks0 0
      [⟨0, List.replicate 5 pB, 5⟩, ⟨1, List.replicate 4 pA, 4⟩] 2 =
      AdjRes.ok [⟨0, List.replicate 4 pA, 4⟩, ⟨1, List.replicate 5 pB, 5⟩] ∧
    ([⟨0, List.replicate 4 pA, 4⟩, ⟨1, List.replicate 5 pB, 5⟩] :
        List (Cluster Pt)).map Cluster.points ≠
      ([⟨0, List.replicate 5 pB, 5⟩, ⟨1, List.replicate 4 pA, 4⟩] :
        List (Cluster Pt)).map Cluster.points := by
  constructor
  · decide
  · decide

/-- Claim C8, amended: when the input cluster count already equals the
target, the Cluster Balancer performs no merge and no split; it returns
exactly the input re-sorted stably by ascending point count with ids
renumbered sequentially, so the point memberships are preserved as a
multiset (and in particular no point is moved between clusters). -/
theorem claim_C8_amended (G : Geo α) (picks : ℕ → List α → List ℕ) (fuel : ℕ)
    (cs : List (Cluster α)) (target : ℕ) (h : cs.length = target) :
    adjustClusterCount G picks fuel cs target =
      AdjRes.ok (renumberClusters (sortBySizeAsc cs)) ∧
    ((renumberClusters (sortBySizeAsc cs)).map Cluster.points).Perm
      (cs.map Cluster.points) := by
  constructor
  · have hlen : (sortBySizeAsc cs).length = target := by
      rw [length_sortBySizeAsc, h]
    have hml2 : mergeLoop G target target (sortBySizeAsc cs) = some (sortBySizeAsc cs) := by
      have h0 := mergeLoop_of_not_lt G target (sortBySizeAsc cs).length (sortBySizeAsc cs)
        (by omega)
      rwa [hlen] at h0
    simp [adjustClusterCount, hml2, hlen]
  · rw [map_points_renumberClusters]
    exact (perm_sortBySizeAsc cs).map Cluster.points

/-- Witness for claim C8 at a concrete input: two clusters of sizes 5
and 4 with target 2. -/
theorem claim_C8_witness :
    adjustClusterCount G0 picks0 7
      [⟨0, List.replicate 5 pB, 5⟩, ⟨1, List.replicate 4 pA, 4⟩] 2 =
      AdjRes.ok (renumberClusters (sortBySizeAsc
        [⟨0, List.replicate 5 pB, 5⟩, ⟨1, List.replicate 4 pA, 4⟩])) ∧
    ((renumberClusters (sortBySizeAsc
        [⟨0, List.replicate 5 pB, 5⟩, ⟨1, List.replicate 4 pA, 4⟩])).map
      Cluster.points).Perm
      (([⟨0, List.replicate 5 pB, 5⟩, ⟨1, List.replicate 4 pA, 4⟩] :
        List (Cluster Pt)).map Cluster.points) :=
  claim_C8_amended G0 picks0 7 _ 2 rfl

theorem calculateClusterCenter_isSome (G : Geo α) (pts : List α) (h : pts ≠ []) :
    ∃ c, calculateClusterCenter G pts = some c := by
  match pts, h with
  | [p], _ => exact ⟨G.coord p, rfl⟩
  | p :: q :: t, _ => exact ⟨G.centerF ((p :: q :: t).map G.coord), rfl⟩

theorem centersOf_some (G : Geo α) (cs : List (Cluster α))
    (h : ∀ c ∈ cs, c.points ≠ []) :
    ∃ l, centersOf G cs = some l ∧ l.length = cs.length := by
  induction cs with
  | nil => exact ⟨[], rfl, rfl⟩
  | cons c tl ih =>
    obtain ⟨ctr, hctr⟩ := calculateClusterCenter_isSome G c.points (h c (by simp))
    obtain ⟨l, hl, hlen⟩ := ih (fun d hd => h d (by simp [hd]))
    refine ⟨ctr :: l, ?_, by simp [hlen]⟩
    simp [centersOf, hctr, hl]

theorem mergeStep_length (G : Geo α) (s : Cluster α) (rest cs2 : List (Cluster α))
    (h : mergeStep G s rest = some cs2) : cs2.length = rest.length := by
  unfold mergeStep at h
  cases hsc : calculateClusterCenter G s.points with
  | none => rw [hsc] at h; simp at h
  | some sc =>
    rw [hsc] at h
    dsimp only at h
    cases hni : nearestClusterIndex G sc rest with
    | none => rw [hni] at h; simp at h
    | some i =>
      rw [hni] at h
      dsimp only at h
      simp only [Option.some.injEq] at h
      rw [← h]
      exact List.length_modify _ _ _

/-- Claim C7: the claim states every merge iteration removes the
smallest remaining cluster.  The merge loop sorts only once, before
iterating, and a cluster that absorbs a merge keeps its list position,
so a later iteration can shift a cluster that is no longer smallest.
Concretely: clusters of sizes 4, 5, 6 (ascending, as after the initial
sort) with target 1; iteration one merges the 4-point cluster into the
5-point cluster, making the new head a 9-point cluster; iteration two
then shifts that 9-point head although the 6-point cluster is smaller. -/
theorem claim_C7_counterexample :
    mergeStep G0 ⟨0, List.replicate 4 pA, 4⟩
        [⟨1, List.replicate 5 pB, 5⟩, ⟨2, List.replicate 6 pC, 6⟩] =
      some [⟨1, List.replicate 5 pB ++ List.replicate 4 pA, 5⟩,
            ⟨2, List.replicate 6 pC, 6⟩] ∧
    (1 : ℕ) < 2 ∧
    (⟨2, List.replicate 6 pC, 6⟩ : Cluster Pt).points.length <
      (⟨1, List.replicate 5 pB ++ List.replicate 4 pA, 5⟩ : Cluster Pt).points.length := by
  refine ⟨by decide, by decide, by decide⟩

/-- Claim C7, amended: in the merge phase each iteration shifts the head
of the once-sorted list (the smallest cluster at sort time, not
necessarily the smallest remaining after earlier merges), appends its
points to the remaining cluster whose centroid is nearest by the
distance function (first index on ties), and the loop continues on the
resulting list; when no other cluster remains the loop stops, returning
the singleton unchanged.  Stated for nonempty clusters, where the
centroid computations cannot throw. -/
theorem claim_C7_amended (G : Geo α) (s : Cluster α) (rest : List (Cluster α))
    (target fuel : ℕ) (hs : s.points ≠ []) (hrest : ∀ c ∈ rest, c.points ≠ []) :
    (rest = [] → mergeLoop G 0 (fuel + 1) [s] = some [s]) ∧
    (rest ≠ [] →
      ∃ sc cts i, calculateClusterCenter G s.points = some sc ∧
        centersOf G rest = some cts ∧
        i < rest.length ∧
        (∀ d ∈ cts.map (fun c => G.dist sc c),
          (cts.map (fun c => G.dist sc c)).getD i 0 ≤ d) ∧
        mergeStep G s rest =
          some (rest.modify (fun c => { c with points := c.points ++ s.points }) i) ∧
        (target < (s :: rest).length →
          mergeLoop G target (s :: rest).length (s :: rest) =
            mergeLoop G target rest.length
              (rest.modify (fun c => { c with points := c.points ++ s.points }) i))) := by
  constructor
  · intro hre
    simp [mergeLoop]
  · intro hre
    obtain ⟨sc, hsc⟩ := calculateClusterCenter_isSome G s.points hs
    obtain ⟨cts, hcts, hlen⟩ := centersOf_some G rest hrest
    have hrlen : 0 < rest.length := List.length_pos.mpr hre
    have hctsne : cts.map (fun c => G.dist sc c) ≠ [] := by
      intro hc
      rw [List.map_eq_nil_iff] at hc
      rw [hc] at hlen
      simp at hlen
      omega
    obtain ⟨hilt, hmin⟩ := argminFirst_spec (cts.map (fun c => G.dist sc c)) hctsne
    have hdslen : (cts.map (fun c => G.dist sc c)).length = rest.length := by
      simp [hlen]
    have hni : nearestClusterIndex G sc rest =
        some (argminFirst (cts.map (fun c => G.dist sc c))) := by
      simp [nearestClusterIndex, hcts]
    have hms : mergeStep G s rest =
        some (rest.modify (fun c => { c with points := c.points ++ s.points })
          (argminFirst (cts.map (fun c => G.dist sc c)))) := by
      simp [mergeStep, hsc, hni]
    refine ⟨sc, cts, argminFirst (cts.map (fun c => G.dist sc c)), hsc, hcts, ?_, hmin, hms, ?_⟩
    · omega
    · intro htar
      have hcons : (s :: rest).length = rest.length + 1 := by simp
      rw [hcons, mergeLoop]
      rw [if_pos (by simpa using htar)]
      have hre2 : rest.isEmpty = false := by
        cases rest with
        | nil => exact absurd rfl hre
        | cons a b => rfl
      simp only [hre2, Bool.false_eq_true, if_false, hms]

/-- Witness for claim C7 at a concrete input: the smallest cluster (4
points) merges into the nearer of the two remaining clusters. -/
theorem claim_C7_witness :
    (([⟨1, List.replicate 5 pB, 5⟩, ⟨2, List.replicate 6 pC, 6⟩] : List (Cluster Pt)) = [] →
      mergeLoop G0 0 (5 + 1) [⟨0, List.replicate 4 pA, 4⟩] =
        some [⟨0, List.replicate 4 pA, 4⟩]) ∧
    (([⟨1, List.replicate 5 pB, 5⟩, ⟨2, List.replicate 6 pC, 6⟩] : List (Cluster Pt)) ≠ [] →
      ∃ sc cts i,
        calculateClusterCenter G0 (⟨0, List.replicate 4 pA, 4⟩ : Cluster Pt).points = some sc ∧
        centersOf G0 [⟨1, List.replicate 5 pB, 5⟩, ⟨2, List.replicate 6 pC, 6⟩] = some cts ∧
        i < ([⟨1, List.replicate 5 pB, 5⟩, ⟨2, List.replicate 6 pC, 6⟩] :
          List (Cluster Pt)).length ∧
        (∀ d ∈ cts.map (fun c => G0.dist sc c),
          (cts.map (fun c => G0.dist sc c)).getD i 0 ≤ d) ∧
        mergeStep G0 ⟨0, List.replicate 4 pA, 4⟩
            [⟨1, List.replicate 5 pB, 5⟩, ⟨2, List.replicate 6 pC, 6⟩] =
          some (([⟨1, List.replicate 5 pB, 5⟩, ⟨2, List.replicate 6 pC, 6⟩] :
            List (Cluster Pt)).modify
              (fun c => { c with points := c.points ++ List.replicate 4 pA }) i) ∧
        (1 < ((⟨0, List.replicate 4 pA, 4⟩ : Cluster Pt) ::
            [⟨1, List.replicate 5 pB, 5⟩, ⟨2, List.replicate 6 pC, 6⟩]).length →
          mergeLoop G0 1 ((⟨0, List.replicate 4 pA, 4⟩ : Cluster Pt) ::
              [⟨1, List.replicate 5 pB, 5⟩, ⟨2, List.replicate 6 pC, 6⟩]).length
            ((⟨0, List.replicate 4 pA, 4⟩ : Cluster Pt) ::
              [⟨1, List.replicate 5 pB, 5⟩, ⟨2, List.replicate 6 pC, 6⟩]) =
          mergeLoop G0 1 ([⟨1, List.replicate 5 pB, 5⟩, ⟨2, List.replicate 6 pC, 6⟩] :
              List (Cluster Pt)).length
            (([⟨1, List.replicate 5 pB, 5⟩, ⟨2, List.replicate 6 pC, 6⟩] :
              List (Cluster Pt)).modify
                (fun c => { c with points := c.points ++ List.replicate 4 pA }) i))) :=
  claim_C7_amended G0 ⟨0, List.replicate 4 pA, 4⟩
    [⟨1, List.replicate 5 pB, 5⟩, ⟨2, List.replicate 6 pC, 6⟩] 1 5
    (by decide) (by decide)

section HullInstances

/-- Trivial city-in-polygon oracle for hull witnesses. -/
def inPolyNone : City → ℕ → Option Bool := fun _ _ => some false

/-- Convex-hull oracle throwing exactly on the degenerate cluster at
(5, 5) and succeeding elsewhere. -/
def convexThrowAt55 : List Pt → HullRes ℕ := fun pts =>
  if (((5 : ℚ), (5 : ℚ)) : Pt) ∈ pts then HullRes.thrown else HullRes.ok (some 7)

/-- Buffer oracle that always throws. -/
def bufferThrow : Pt → ℕ → HullRes ℕ := fun _ _ => HullRes.thrown

/-- Convex-hull oracle returning null without throwing, the documented
behaviour of turf.convex on degenerate (for instance collinear) input. -/
def convexNull : List Pt → HullRes ℕ := fun _ => HullRes.ok none

/-- Convex-hull oracle that always throws. -/
def convexThrow : List Pt → HullRes ℕ := fun _ => HullRes.thrown

/-- Buffer oracle that always returns polygon 3. -/
def bufferOk3 : Pt → ℕ → HullRes ℕ := fun _ _ => HullRes.ok (some 3)

end HullInstances

/-- Claim C4: the claim (and spec section 7) says that when every hull
strategy fails for one cluster, only that cluster is skipped and the
remaining clusters are still converted.  The source instead executes
return null inside the buffer catch (region-processor.js:752), exiting
clustersToPolygons for the whole country: here the first cluster alone
converts to a feature, yet with a second cluster on which both the
convex hull and the buffer throw, the whole conversion returns null and
the first feature is discarded.  The spec is the evident intent (the
surrounding per-cluster handling logs and continues); the return null
where a continue belongs is the code slip. -/
theorem claim_C4_code_bug :
    processOneCluster G0 convexThrowAt55 bufferThrow [] inPolyNone none
        ⟨0, [pA, pB, pC], 3⟩ =
      some (some { polygon := 7, clusterID := 0, pointCount := 3, regionName := none }) ∧
    clustersToPolygons G0 convexThrowAt55 bufferThrow [] inPolyNone none
        [⟨0, [pA, pB, pC], 3⟩,
         ⟨1, List.replicate 3 (((5 : ℚ), (5 : ℚ)) : Pt), 3⟩] = none := by
  refine ⟨by decide, by decide⟩

/-- Claim C5: the claim says a cluster of at least 3 exactly collinear
points still gets a polygon through the buffer fallback.  The buffer
fallback of the source runs only when turf.convex throws; on collinear
input turf.convex returns null without throwing, the source then hits
the null-polygon check (region-processor.js:757) and skips the cluster,
so the cluster produces no geometry at all: with the convex oracle
returning ok null on the collinear cluster (0,0), (1,0), (2,0), the
conversion returns an empty feature list. -/
theorem claim_C5_counterexample :
    clustersToPolygons G0 convexNull bufferOk3 [] inPolyNone none
        [⟨0, [pA, pB, (((2 : ℚ), (0 : ℚ)) : Pt)], 3⟩] = some [] := by
  decide

/-- Claim C5, amended: for a cluster of at least 3 points, the buffer
fallback produces a polygon only when the convex hull call throws and
the buffer call succeeds; when the convex hull returns null without
throwing — its behaviour on exactly collinear points — the cluster is
skipped and contributes no geometry. -/
theorem claim_C5_amended {P : Type} (G : Geo α) (convexO : List Pt → HullRes P)
    (bufferO : Pt → ℕ → HullRes P) (cities : List City)
    (inPoly : City → P → Option Bool) (cc : Option String) (c : Cluster α)
    (h3 : 3 ≤ c.points.length) :
    (convexO (c.points.map G.coord) = HullRes.ok none →
      clustersToPolygons G convexO bufferO cities inPoly cc [c] = some []) ∧
    (∀ ctr p, convexO (c.points.map G.coord) = HullRes.thrown →
      calculateClusterCenter G c.points = some ctr →
      bufferO ctr c.points.length = HullRes.ok (some p) →
      clustersToPolygons G convexO bufferO cities inPoly cc [c] =
        some [{ polygon := p, clusterID := c.id, pointCount := c.points.length,
                regionName := findCitiesInRegion cities (fun city => inPoly city p) cc }]) := by
  have hlt : ¬ c.points.length < 3 := by omega
  constructor
  · intro hcx
    simp [clustersToPolygons, processOneCluster, hlt, hcx]
  · intro ctr p hcx hctr hbuf
    simp [clustersToPolygons, processOneCluster, hlt, hcx, hctr, hbuf]

/-- Witness for claim C5 at concrete inputs: the same collinear
3-point cluster is skipped when the convex hull returns null, and gets
the buffer polygon when the convex hull throws. -/
theorem claim_C5_witness :
    clustersToPolygons G0 convexNull bufferOk3 [] inPolyNone none
        [⟨0, [pA, pB, (((2 : ℚ), (0 : ℚ)) : Pt)], 3⟩] = some [] ∧
    clustersToPolygons G0 convexThrow bufferOk3 [] inPolyNone none
        [⟨0, [pA, pB, (((2 : ℚ), (0 : ℚ)) : Pt)], 3⟩] =
      some [{ polygon := 3, clusterID := 0, pointCount := 3,
              regionName := findCitiesInRegion [] (fun city => inPolyNone city 3) none }] :=
  ⟨(claim_C5_amended G0 convexNull bufferOk3 [] inPolyNone none
      ⟨0, [pA, pB, (((2 : ℚ), (0 : ℚ)) : Pt)], 3⟩ (by decide)).1 (by decide),
   (claim_C5_amended G0 convexThrow bufferOk3 [] inPolyNone none
      ⟨0, [pA, pB, (((2 : ℚ), (0 : ℚ)) : Pt)], 3⟩ (by decide)).2 pA 3
     (by decide) (by decide) (by decide)⟩

/-- Claim C9: the claim says only the largest city is reported exactly
when its population exceeds 3 times the second largest.  The source
keeps the secondary city only when primary.population is strictly less
than second.population * 3, so at exact equality (300 versus 100) the
secondary is dropped although 300 does not exceed 3 * 100: the claimed
biconditional fails at the boundary. -/
theorem claim_C9_counterexample :
    (findCitiesInRegion
        [⟨"Alfa", 0, 0, "US", 300⟩, ⟨"Beta", 0, 1, "US", 100⟩]
        (fun _ => some true) none).map RegionName.secondary = some none ∧
    ¬ ((300 : ℕ) > 3 * 100) := by
  refine ⟨by decide, by decide⟩

/-- Claim C9, amended: the City Attributor returns null exactly when no
gazetteer city (after the country filter) passes the point-in-polygon
test; otherwise it reports the most populous city in the region as
primary, keeps a secondary exactly when a second city exists and the
primary population is strictly below three times the secondary
population (so only the largest is reported exactly when its population
is at least - not strictly more than - 3 times the second largest), the
secondary being the most populous among the remaining cities, and the
display name is the primary name alone or primary / secondary. -/
theorem claim_C9_amended (cities : List City) (inPoly : City → Option Bool)
    (cc : Option String) :
    (findCitiesInRegion cities inPoly cc = none ↔
      ∀ c ∈ countryCitiesOf cities cc, ¬ inPoly c = some true) ∧
    (∀ r, findCitiesInRegion cities inPoly cc = some r →
      ∃ primary rest, sortedCitiesOf cities inPoly cc = primary :: rest ∧
        r.primaryName = primary.name ∧ r.primaryPop = primary.population ∧
        (∀ c ∈ citiesInRegionOf cities inPoly cc, c.population ≤ primary.population) ∧
        ((r.secondary = none ∧ r.displayName = primary.name) ∨
         (∃ second t, rest = second :: t ∧
            r.secondary = some (second.name, second.population) ∧
            r.displayName = primary.name ++ " / " ++ second.name ∧
            primary.population < second.population * 3 ∧
            (∀ c ∈ t, c.population ≤ second.population))) ∧
        (r.secondary = none ↔ rest = [] ∨
          ∃ second t, rest = second :: t ∧ second.population * 3 ≤ primary.population)) := by
  have hperm := List.perm_insertionSort popGE (citiesInRegionOf cities inPoly cc)
  have hsorted := List.sorted_insertionSort popGE (citiesInRegionOf cities inPoly cc)
  have hinreg : citiesInRegionOf cities inPoly cc = [] ↔
      ∀ c ∈ countryCitiesOf cities cc, ¬ inPoly c = some true := by
    unfold citiesInRegionOf
    simp [List.filter_eq_nil_iff]
  have hsortnil : sortedCitiesOf cities inPoly cc = [] ↔
      citiesInRegionOf cities inPoly cc = [] := by
    unfold sortedCitiesOf
    constructor
    · intro h
      have h2 := hperm
      rw [h] at h2
      exact h2.symm.eq_nil
    · intro h
      rw [h]
      rfl
  constructor
  · rw [← hinreg, ← hsortnil]
    unfold findCitiesInRegion
    by_cases hemp : cities.isEmpty
    · rw [if_pos hemp]
      have hnil : cities = [] := List.isEmpty_iff.mp hemp
      have hreg : citiesInRegionOf cities inPoly cc = [] := by
        subst hnil
        cases cc with
        | none => rfl
        | some s => rfl
      simp [hsortnil.mpr hreg]
    · rw [if_neg hemp]
      cases hs : sortedCitiesOf cities inPoly cc with
      | nil => simp
      | cons p t => simp
  · intro r hr
    unfold findCitiesInRegion at hr
    by_cases hemp : cities.isEmpty
    · rw [if_pos hemp] at hr; exact absurd hr (by simp)
    · rw [if_neg hemp] at hr
      cases hs : sortedCitiesOf cities inPoly cc with
      | nil => rw [hs] at hr; exact absurd hr (by simp)
      | cons primary rest =>
        rw [hs] at hr
        have hsorted2 : List.Sorted popGE (primary :: rest) := by
          rw [← hs]; exact hsorted
        have hheadmax : ∀ b ∈ rest, b.population ≤ primary.population :=
          fun b hb => List.sorted_cons.mp hsorted2 |>.1 b hb
        have hmax : ∀ c ∈ citiesInRegionOf cities inPoly cc,
            c.population ≤ primary.population := by
          intro c hc
          have hmem : c ∈ primary :: rest := by
            rw [← hs]
            exact (hperm.symm.mem_iff).mp hc
          rcases List.mem_cons.mp hmem with rfl | hmem
          · exact le_refl _
          · exact hheadmax c hmem
        refine ⟨primary, rest, rfl, ?_⟩
        cases rest with
        | nil =>
          dsimp only at hr
          simp only [Option.some.injEq] at hr
          subst hr
          refine ⟨rfl, rfl, hmax, Or.inl ⟨rfl, rfl⟩, ?_⟩
          simp
        | cons second t =>
          dsimp only at hr
          by_cases hpop : primary.population < second.population * 3
          · rw [if_pos hpop] at hr
            simp only [Option.some.injEq] at hr
            subst hr
            refine ⟨rfl, rfl, hmax, ?_, ?_⟩
            · refine Or.inr ⟨second, t, rfl, by simp, by simp, hpop, ?_⟩
              intro c hc
              have hsorted3 : List.Sorted popGE (second :: t) :=
                List.sorted_cons.mp hsorted2 |>.2
              exact List.sorted_cons.mp hsorted3 |>.1 c hc
            · constructor
              · intro hcontra
                exact absurd hcontra (by simp)
              · rintro (hcontra | ⟨s2, t2, heq, hle⟩)
                · exact absurd hcontra (by simp)
                · have hs2 : s2 = second := by
                    injection heq with h1 h2
                    exact h1.symm
                  subst hs2
                  omega
          · rw [if_neg hpop] at hr
            simp only [Option.some.injEq] at hr
            subst hr
            refine ⟨rfl, rfl, hmax, Or.inl ⟨rfl, rfl⟩, ?_⟩
            constructor
            · intro _
              exact Or.inr ⟨second, t, rfl, by omega⟩
            · intro _
              rfl

theorem forall_mem_modify {l : List α} (P : α → Prop) (f : α → α)
    (h : ∀ c ∈ l, P c) (hf : ∀ c, P c → P (f c)) :
    ∀ i, ∀ c ∈ List.modify f i l, P c := by
  intro i c hc
  obtain ⟨m, hm, hget⟩ := List.mem_iff_getElem.mp hc
  rw [List.getElem_modify] at hget
  have hm2 : m < l.length := by
    have := List.length_modify f i l
    omega
  by_cases him : i = m
  · rw [if_pos him] at hget
    rw [← hget]
    exact hf _ (h _ (List.getElem_mem hm2))
  · rw [if_neg him] at hget
    rw [← hget]
    exact h _ (List.getElem_mem hm2)

theorem mergeStep_exists (G : Geo α) (s : Cluster α) (rest : List (Cluster α))
    (hs : s.points ≠ []) (hrest : ∀ c ∈ rest, c.points ≠ []) :
    ∃ cs2, mergeStep G s rest = some cs2 ∧ cs2.length = rest.length ∧
      ∀ c ∈ cs2, c.points ≠ [] := by
  obtain ⟨sc, hsc⟩ := calculateClusterCenter_isSome G s.points hs
  obtain ⟨cts, hcts, _⟩ := centersOf_some G rest hrest
  have hni : nearestClusterIndex G sc rest =
      some (argminFirst (cts.map (fun c => G.dist sc c))) := by
    simp [nearestClusterIndex, hcts]
  refine ⟨rest.modify (fun c => { c with points := c.points ++ s.points })
      (argminFirst (cts.map (fun c => G.dist sc c))), ?_,
      List.length_modify _ _ _, ?_⟩
  · simp [mergeStep, hsc, hni]
  · exact forall_mem_modify (fun (c : Cluster α) => c.points ≠ [])
      (fun c => { c with points := c.points ++ s.points }) hrest
      (fun c hc => by simp [hc]) _

theorem mergeLoop_exact (G : Geo α) (target : ℕ) (ht : 1 ≤ target) :
    ∀ n (cs : List (Cluster α)), cs.length = n → (∀ c ∈ cs, c.points ≠ []) →
      target ≤ cs.length →
      ∃ ms, mergeLoop G target n cs = some ms ∧ ms.length = target ∧
        ∀ c ∈ ms, c.points ≠ [] := by
  intro n
  induction n with
  | zero =>
    intro cs hlen hne htar
    refine ⟨cs, rfl, ?_, hne⟩
    omega
  | succ n ih =>
    intro cs hlen hne htar
    by_cases hgt : target < cs.length
    · match cs, hlen with
      | s :: rest, hlen =>
        have hrne : rest ≠ [] := by
          intro hr
          rw [hr] at hlen hgt
          simp at hlen hgt
          omega
        obtain ⟨cs2, hms, hlen2, hne2⟩ := mergeStep_exists G s rest
          (hne s (by simp)) (fun c hc => hne c (by simp [hc]))
        have hlen3 : cs2.length = n := by
          simp at hlen
          omega
        obtain ⟨ms, hml, hmslen, hmsne⟩ := ih cs2 hlen3 hne2 (by
          simp at hlen hgt
          omega)
        refine ⟨ms, ?_, hmslen, hmsne⟩
        rw [mergeLoop_succ, if_pos hgt]
        have hre2 : rest.isEmpty = false := by
          cases rest with
          | nil => exact absurd rfl hrne
          | cons a b => rfl
        simp only [hre2, Bool.false_eq_true, if_false, hms]
        exact hml
    · refine ⟨cs, ?_, by omega, hne⟩
      rw [mergeLoop_succ, if_neg hgt]

theorem splitCluster_parts_le (G : Geo α) (seeds : List ℕ) (c : Cluster α)
    (parts : List (Cluster α)) (h : splitCluster G 2 seeds c = some parts) :
    parts.length ≤ 2 := by
  unfold splitCluster at h
  by_cases hv : seeds.length = 2 ∧ seeds.Nodup ∧ ∀ s ∈ seeds, s < c.points.length
  · rw [if_pos hv] at h
    simp only [Option.some.injEq] at h
    calc parts.length ≤ (List.range 2).length := by
          rw [← h]; exact List.length_filterMap_le _ _
    _ = 2 := by simp
  · rw [if_neg hv] at h
    simp at h

theorem length_sortBySizeDesc (cs : List (Cluster α)) :
    (sortBySizeDesc cs).length = cs.length := by
  simp [sortBySizeDesc, List.length_insertionSort]

theorem splitPhase_ok_le (G : Geo α) (picks : ℕ → List α → List ℕ) (target : ℕ) :
    ∀ fuel ctr (cs : List (Cluster α)) out, cs.length ≤ target →
      splitPhase G picks target fuel ctr cs = AdjRes.ok out → out.length ≤ target := by
  intro fuel
  induction fuel with
  | zero => intro ctr cs out _ h; exact absurd h (by simp [splitPhase])
  | succ fuel ih =>
    intro ctr cs out hle h
    rw [splitPhase_succ] at h
    by_cases hlt : cs.length < target
    · rw [if_pos hlt] at h
      cases hs : sortBySizeDesc cs with
      | nil =>
        rw [hs] at h
        dsimp only at h
        exact absurd h (by simp)
      | cons l rest =>
        rw [hs] at h
        dsimp only at h
        have hslen : rest.length + 1 = cs.length := by
          have := length_sortBySizeDesc cs
          rw [hs] at this
          simpa using this
        by_cases hsmall : l.points.length < 3
        · rw [if_pos hsmall] at h
          simp only [AdjRes.ok.injEq] at h
          rw [← h]
          simp
          omega
        · rw [if_neg hsmall] at h
          cases hsp : splitCluster G 2 (picks ctr l.points) l with
          | none => rw [hsp] at h; exact absurd h (by simp)
          | some parts =>
            rw [hsp] at h
            have hple := splitCluster_parts_le G (picks ctr l.points) l parts hsp
            exact ih (ctr + 1) (rest ++ parts) out (by simp; omega) h
    · rw [if_neg hlt] at h
      simp only [AdjRes.ok.injEq] at h
      subst h
      omega

theorem mergeLoop_le (G : Geo α) (target : ℕ) (ht : 1 ≤ target) :
    ∀ fuel (cs : List (Cluster α)) ms, cs.length ≤ fuel →
      mergeLoop G target fuel cs = some ms →
      ms.length ≤ target ∨ (ms = cs ∧ ¬ target < cs.length) := by
  intro fuel
  induction fuel with
  | zero =>
    intro cs ms hlen h
    right
    have hcs : ms = cs := by simpa [mergeLoop] using h.symm
    refine ⟨hcs, ?_⟩
    omega
  | succ fuel ih =>
    intro cs ms hlen h
    rw [mergeLoop_succ] at h
    by_cases hgt : target < cs.length
    · rw [if_pos hgt] at h
      left
      match cs, h, hgt, hlen with
      | s :: rest, h, hgt, hlen =>
        dsimp only at h
        by_cases hre : rest.isEmpty
        · rw [if_pos hre] at h
          simp only [Option.some.injEq] at h
          rw [← h]
          simpa using ht
        · rw [if_neg hre] at h
          cases hms : mergeStep G s rest with
          | none => rw [hms] at h; exact absurd h (by simp)
          | some cs2 =>
            rw [hms] at h
            have hl2 := mergeStep_length G s rest cs2 hms
            rcases ih cs2 ms (by simp at hlen; omega) h with h2 | ⟨rfl, h2⟩
            · exact h2
            · omega
    · rw [if_neg hgt] at h
      right
      simp only [Option.some.injEq] at h
      exact ⟨h.symm, hgt⟩

theorem splitPhase_coincident_diverge :
    ∀ fuel ctr, splitPhase G0 picks0 3 fuel ctr [⟨0, List.replicate 9 pA, 9⟩] =
      AdjRes.diverge := by
  intro fuel
  induction fuel with
  | zero => intro ctr; rfl
  | succ fuel ih =>
    intro ctr
    rw [splitPhase_succ, if_pos (by decide)]
    have hsort : sortBySizeDesc [(⟨0, List.replicate 9 pA, 9⟩ : Cluster Pt)] =
        [⟨0, List.replicate 9 pA, 9⟩] := by decide
    rw [hsort]
    dsimp only
    rw [if_neg (by decide)]
    have hp : picks0 ctr (List.replicate 9 pA) = [0, 1] := rfl
    rw [hp]
    have hsplit : splitCluster G0 2 [0, 1] (⟨0, List.replicate 9 pA, 9⟩ : Cluster Pt) =
        some [⟨0, List.replicate 9 pA, 9⟩] := by decide
    rw [hsplit]
    exact ih (ctr + 1)

theorem adjust_coincident_diverge :
    ∀ fuel, adjustClusterCount G0 picks0 fuel [⟨0, List.replicate 9 pA, 9⟩] 3 =
      AdjRes.diverge := by
  intro fuel
  unfold adjustClusterCount
  dsimp only
  have hsort : sortBySizeAsc [(⟨0, List.replicate 9 pA, 9⟩ : Cluster Pt)] =
      [⟨0, List.replicate 9 pA, 9⟩] := by decide
  rw [hsort]
  have hml : mergeLoop G0 3
      ([(⟨0, List.replicate 9 pA, 9⟩ : Cluster Pt)]).length
      [⟨0, List.replicate 9 pA, 9⟩] = some [⟨0, List.replicate 9 pA, 9⟩] := by decide
  rw [hml]
  dsimp only
  rw [if_pos (by decide)]
  rw [splitPhase_coincident_diverge fuel 0]

/-- Claim C1: the claim promises exactly targetCount clusters whenever
the total point count is at least targetCount * minPoints (minPoints 3).
A single cluster of 9 coincident points with targetCount 3 satisfies
that premise (9 = 3 * 3), but every k-means bisection of it seeds two
centroids at the same coordinates, assigns every point to the first
centroid (strict-minimum scan), drops the empty second sub-cluster and
returns a single unchanged cluster, so the split loop of
adjustClusterCount never makes progress: the source loops forever for
every random seed choice, and the embedding diverges at every fuel, so
no run returns 3 clusters. -/
theorem claim_C1_counterexample :
    ¬ ∃ fuel out, adjustClusterCount G0 picks0 fuel
      [⟨0, List.replicate 9 pA, 9⟩] 3 = AdjRes.ok out ∧ out.length = 3 := by
  rintro ⟨fuel, out, heq, _⟩
  rw [adjust_coincident_diverge fuel] at heq
  exact absurd heq (by simp)

theorem length_renumberClusters (cs : List (Cluster α)) :
    (renumberClusters cs).length = cs.length := by
  simp [renumberClusters]

/-- Claim C1, amended: for a positive targetCount and nonempty input
clusters, the Cluster Balancer returns exactly targetCount clusters
whenever the input cluster count is at least targetCount (the merge
loop removes one cluster per iteration until the count matches), and
every successful return has at most targetCount clusters; when the
input count is below targetCount the split loop raises the count by at
most one per bisection but carries no termination guarantee (it loops
forever when a bisection keeps returning a single sub-cluster, as with
coincident points), so no exact-count promise holds in that direction
even when totalPoints is at least targetCount times 3. -/
theorem claim_C1_amended (G : Geo α) (picks : ℕ → List α → List ℕ) (fuel : ℕ)
    (cs : List (Cluster α)) (target : ℕ) (ht : 1 ≤ target)
    (hne : ∀ c ∈ cs, c.points ≠ []) :
    (target ≤ cs.length →
      ∃ out, adjustClusterCount G picks fuel cs target = AdjRes.ok out ∧
        out.length = target) ∧
    (∀ out, adjustClusterCount G picks fuel cs target = AdjRes.ok out →
      out.length ≤ target) := by
  have hsne : ∀ c ∈ sortBySizeAsc cs, c.points ≠ [] :=
    fun c hc => hne c ((perm_sortBySizeAsc cs).mem_iff.mp hc)
  constructor
  · intro htar
    obtain ⟨ms, hml, hmslen, _⟩ := mergeLoop_exact G target ht
      (sortBySizeAsc cs).length (sortBySizeAsc cs) rfl hsne
      (by rw [length_sortBySizeAsc]; exact htar)
    refine ⟨renumberClusters ms, ?_, by rw [length_renumberClusters]; exact hmslen⟩
    unfold adjustClusterCount
    dsimp only
    rw [hml]
    dsimp only
    rw [if_neg (by omega)]
  · intro out hout
    unfold adjustClusterCount at hout
    dsimp only at hout
    cases hml : mergeLoop G target (sortBySizeAsc cs).length (sortBySizeAsc cs) with
    | none => rw [hml] at hout; exact absurd hout (by simp)
    | some merged =>
      rw [hml] at hout
      dsimp only at hout
      have hmle : merged.length ≤ target := by
        rcases mergeLoop_le G target ht (sortBySizeAsc cs).length (sortBySizeAsc cs)
          merged (le_refl _) hml with h2 | ⟨rfl, h2⟩
        · exact h2
        · omega
      by_cases hlt : merged.length < target
      · rw [if_pos hlt] at hout
        cases hsp : splitPhase G picks target fuel 0 merged with
        | ok final =>
          rw [hsp] at hout
          dsimp only at hout
          simp only [AdjRes.ok.injEq] at hout
          have := splitPhase_ok_le G picks target fuel 0 merged final (by omega) hsp
          rw [← hout, length_renumberClusters]
          exact this
        | err => rw [hsp] at hout; exact absurd hout (by simp)
        | diverge => rw [hsp] at hout; exact absurd hout (by simp)
      · rw [if_neg hlt] at hout
        simp only [AdjRes.ok.injEq] at hout
        rw [← hout, length_renumberClusters]
        exact hmle

/-- Witness for the amended claim C1 at a concrete input: three
nonempty clusters with target 2 merge down to exactly 2 clusters. -/
theorem claim_C1_witness :
    (∃ out, adjustClusterCount G0 picks0 4
      [⟨0, List.replicate 4 pA, 4⟩, ⟨1, List.replicate 5 pB, 5⟩,
       ⟨2, List.replicate 6 pC, 6⟩] 2 = AdjRes.ok out ∧ out.length = 2) ∧
    (∀ out, adjustClusterCount G0 picks0 4
      [⟨0, List.replicate 4 pA, 4⟩, ⟨1, List.replicate 5 pB, 5⟩,
       ⟨2, List.replicate 6 pC, 6⟩] 2 = AdjRes.ok out → out.length ≤ 2) :=
  ⟨(claim_C1_amended G0 picks0 4 _ 2 (by decide) (by decide)).1 (by decide),
   (claim_C1_amended G0 picks0 4 _ 2 (by decide) (by decide)).2⟩

theorem foldl_keys_nodup (items : List DItem) : ∀ acc : List Dir8, acc.Nodup →
    (items.foldl (fun acc it => if it.dir ∈ acc then acc else acc ++ [it.dir]) acc).Nodup := by
  induction items with
  | nil => intro acc h; exact h
  | cons it tl ih =>
    intro acc h
    rw [List.foldl_cons]
    by_cases hm : it.dir ∈ acc
    · rw [if_pos hm]
      exact ih acc h
    · rw [if_neg hm]
      refine ih (acc ++ [it.dir]) ?_
      rw [List.nodup_append]
      refine ⟨h, List.nodup_singleton _, ?_⟩
      intro x hx1 hx2
      rw [List.mem_singleton] at hx2
      subst hx2
      exact hm hx1

theorem groupKeys_nodup (items : List DItem) : (groupKeys items).Nodup :=
  foldl_keys_nodup items [] (List.nodup_nil)

theorem dirCodes_nodup (g : Dir8 → List DItem) : ∀ keys : List Dir8, keys.Nodup →
    ((keys.flatMap (fun d => (g d).enum.map
      (fun kit => (kit.2.idx, DirId.dir d (kit.1 + 1))))).map Prod.snd).Nodup := by
  intro keys
  induction keys with
  | nil => intro _; simp
  | cons d ks ih =>
    intro hnd
    rw [List.flatMap_cons, List.map_append, List.nodup_append]
    obtain ⟨hd, hks⟩ := List.nodup_cons.mp hnd
    refine ⟨?_, ih hks, ?_⟩
    · rw [List.map_map]
      have h1 : (Prod.snd ∘ fun (kit : ℕ × DItem) => ((kit.2.idx : ℕ), DirId.dir d (kit.1 + 1))) =
          ((fun k => DirId.dir d (k + 1)) ∘ Prod.fst) := rfl
      rw [h1, ← List.map_map, List.enum_map_fst]
      refine List.Nodup.map ?_ (List.nodup_range _)
      intro a b hab
      simp only [DirId.dir.injEq, true_and] at hab
      omega
    · intro x hx1 hx2
      simp only [List.mem_map, List.mem_flatMap] at hx1 hx2
      obtain ⟨p1, hp1, hx⟩ := hx1
      obtain ⟨kit1, _, hk1⟩ := hp1
      obtain ⟨p2, ⟨d2, hd2, hp2⟩, hx2⟩ := hx2
      obtain ⟨kit2, _, hk2⟩ := hp2
      rw [← hk1] at hx
      rw [← hk2] at hx2
      rw [← hx] at hx2
      simp only [DirId.dir.injEq] at hx2
      exact hd (hx2.1 ▸ hd2)

theorem assignCodes_snd_nodup (final : List DItem) :
    ((assignCodes final).map Prod.snd).Nodup := by
  have h := dirCodes_nodup
    (fun d => (final.filter (fun (it : DItem) => decide (it.dir = d))).insertionSort
      (fun a b => a.distance ≤ b.distance))
    (groupKeys final) (groupKeys_nodup final)
  exact h

theorem assignCodes_snd_shape (final : List DItem) :
    ∀ x ∈ (assignCodes final).map Prod.snd, ∃ d k, x = DirId.dir d k := by
  intro x hx
  simp only [assignCodes, List.mem_map, List.mem_flatMap] at hx
  obtain ⟨p, ⟨d, _, hp⟩, hx⟩ := hx
  obtain ⟨kit, _, hk⟩ := hp
  exact ⟨d, kit.1 + 1, by rw [← hx, ← hk]⟩

/-- Claim C6: for every region collection the assigned direction codes
are pairwise distinct, and for a nonempty collection exactly one region
carries the code C, namely one whose centroid distance to the country
centroid is minimal (the source strict-minimum scan takes the first
such region).  The codes are compared in structured form (C, or octant
with 1-based rank), which the source renders injectively as strings. -/
theorem claim_C6 (dist bearingF : Pt → Pt → ℚ) (cc : Pt) (centers : List Pt) :
    ((assignDirectionalIds dist bearingF cc centers).map Prod.snd).Nodup ∧
    (centers ≠ [] →
      ((assignDirectionalIds dist bearingF cc centers).map Prod.snd).count DirId.C = 1 ∧
      ∃ ci, (ci, DirId.C) ∈ assignDirectionalIds dist bearingF cc centers ∧
        ci < centers.length ∧
        ∀ d ∈ centers.map (fun c => dist c cc),
          (centers.map (fun c => dist c cc)).getD ci 0 ≤ d) := by
  cases centers with
  | nil => exact ⟨by simp [assignDirectionalIds], fun h => absurd rfl h⟩
  | cons c0 rest =>
    have hform : assignDirectionalIds dist bearingF cc (c0 :: rest) =
        (argminFirst ((c0 :: rest).map (fun c => dist c cc)), DirId.C) ::
          assignCodes (dirFinalOf
            ((dirItemsOf dist bearingF cc (c0 :: rest)
              (argminFirst ((c0 :: rest).map (fun c => dist c cc)))).insertionSort
              (fun a b => a.distance ≤ b.distance))) := rfl
    set final := dirFinalOf
      ((dirItemsOf dist bearingF cc (c0 :: rest)
        (argminFirst ((c0 :: rest).map (fun c => dist c cc)))).insertionSort
        (fun a b => a.distance ≤ b.distance)) with hfinal
    have hCnot : DirId.C ∉ (assignCodes final).map Prod.snd := by
      intro hmem
      obtain ⟨d, k, hdk⟩ := assignCodes_snd_shape final DirId.C hmem
      exact absurd hdk (by simp)
    constructor
    · rw [hform, List.map_cons]
      exact List.nodup_cons.mpr ⟨hCnot, assignCodes_snd_nodup final⟩
    · intro _
      have hne : (c0 :: rest).map (fun c => dist c cc) ≠ [] := by simp
      obtain ⟨hlt, hmin⟩ := argminFirst_spec ((c0 :: rest).map (fun c => dist c cc)) hne
      refine ⟨?_, argminFirst ((c0 :: rest).map (fun c => dist c cc)), ?_, ?_, hmin⟩
      · rw [hform, List.map_cons]
        rw [List.count_cons_self]
        rw [List.count_eq_zero_of_not_mem hCnot]
      · rw [hform]
        exact List.mem_cons_self _ _
      · simpa using hlt

/-- Witness for claim C6 at a concrete input: three regions on the
equator with the middle one nearest the country center. -/
theorem claim_C6_witness :
    ((assignDirectionalIds dist0 (fun _ q => if q = pC then 90 else 270) pB
        [pA, pB, pC]).map Prod.snd).Nodup ∧
    ([pA, pB, pC] ≠ [] →
      ((assignDirectionalIds dist0 (fun _ q => if q = pC then 90 else 270) pB
          [pA, pB, pC]).map Prod.snd).count DirId.C = 1 ∧
      ∃ ci, (ci, DirId.C) ∈ assignDirectionalIds dist0
          (fun _ q => if q = pC then 90 else 270) pB [pA, pB, pC] ∧
        ci < ([pA, pB, pC] : List Pt).length ∧
        ∀ d ∈ ([pA, pB, pC] : List Pt).map (fun c => dist0 c pB),
          (([pA, pB, pC] : List Pt).map (fun c => dist0 c pB)).getD ci 0 ≤ d) :=
  claim_C6 dist0 (fun _ q => if q = pC then 90 else 270) pB [pA, pB, pC]

theorem expandCluster_spec {n : ℕ} (G : Geo (Fin n)) (maxD : ℚ) (minPts : ℕ) :
    ∀ (fuel : ℕ) (queue : List (Fin n)) (visited clustered : Finset (Fin n))
      (pts : List (Fin n)),
      clustered ⊆ (expandCluster G maxD minPts fuel queue visited clustered pts).2.1 ∧
      (clustered ⊆ visited →
        (expandCluster G maxD minPts fuel queue visited clustered pts).2.1 ⊆
          (expandCluster G maxD minPts fuel queue visited clustered pts).1) ∧
      (∀ i, (expandCluster G maxD minPts fuel queue visited clustered pts).2.2.count i =
        pts.count i +
          (if i ∈ (expandCluster G maxD minPts fuel queue visited clustered pts).2.1 ∧
              i ∉ clustered then 1 else 0)) := by
  intro fuel
  induction fuel with
  | zero =>
    intro queue visited clustered pts
    refine ⟨?_, ?_, ?_⟩ <;> simp [expandCluster]
  | succ fuel ih =>
    intro queue visited clustered pts
    cases queue with
    | nil =>
      refine ⟨?_, ?_, ?_⟩ <;> simp [expandCluster]
    | cons j q =>
      by_cases hv : j ∈ visited
      · by_cases hc : j ∈ clustered
        · have heq : expandCluster G maxD minPts (fuel + 1) (j :: q) visited clustered pts =
              expandCluster G maxD minPts fuel q visited clustered pts := by
            simp [expandCluster, hv, hc]
          rw [heq]
          exact ih q visited clustered pts
        · have heq : expandCluster G maxD minPts (fuel + 1) (j :: q) visited clustered pts =
              expandCluster G maxD minPts fuel q visited (insert j clustered) (pts ++ [j]) := by
            simp [expandCluster, hv, hc]
          rw [heq]
          obtain ⟨h1, h2, h3⟩ := ih q visited (insert j clustered) (pts ++ [j])
          refine ⟨le_trans (Finset.subset_insert j clustered) h1, ?_, ?_⟩
          · intro hcv
            exact h2 (Finset.insert_subset hv hcv)
          · intro i
            rw [h3 i]
            by_cases hij : i = j
            · subst hij
              have hinr : i ∈ (expandCluster G maxD minPts fuel q visited
                  (insert i clustered) (pts ++ [i])).2.1 :=
                h1 (Finset.mem_insert_self i clustered)
              simp [hinr, hc]
            · by_cases hicl : i ∈ clustered
              · have hins : i ∈ insert j clustered := Finset.mem_insert_of_mem hicl
                simp [List.count_append, hij, hicl, hins]
              · have hins : (i ∈ insert j clustered) ↔ False := by
                  simp [Finset.mem_insert, hij, hicl]
                simp [List.count_append, hij, hicl, hins]
      · by_cases hc : j ∈ clustered
        · have heq : expandCluster G maxD minPts (fuel + 1) (j :: q) visited clustered pts =
              expandCluster G maxD minPts fuel
                (if minPts ≤ (findNeighbors G maxD j).length then q ++ findNeighbors G maxD j
                 else q) (insert j visited) clustered pts := by
            simp [expandCluster, hv, hc]
          rw [heq]
          obtain ⟨h1, h2, h3⟩ := ih _ (insert j visited) clustered pts
          exact ⟨h1, fun hcv => h2 (le_trans hcv (Finset.subset_insert j visited)), h3⟩
        · have heq : expandCluster G maxD minPts (fuel + 1) (j :: q) visited clustered pts =
              expandCluster G maxD minPts fuel
                (if minPts ≤ (findNeighbors G maxD j).length then q ++ findNeighbors G maxD j
                 else q) (insert j visited) (insert j clustered) (pts ++ [j]) := by
            simp [expandCluster, hv, hc]
          rw [heq]
          obtain ⟨h1, h2, h3⟩ := ih _ (insert j visited) (insert j clustered) (pts ++ [j])
          refine ⟨le_trans (Finset.subset_insert j clustered) h1, ?_, ?_⟩
          · intro hcv
            exact h2 (Finset.insert_subset_insert j hcv)
          · intro i
            rw [h3 i]
            by_cases hij : i = j
            · subst hij
              have hinr : i ∈ (expandCluster G maxD minPts fuel
                  (if minPts ≤ (findNeighbors G maxD i).length then q ++ findNeighbors G maxD i
                   else q) (insert i visited) (insert i clustered) (pts ++ [i])).2.1 :=
                h1 (Finset.mem_insert_self i clustered)
              simp [hinr, hc]
            · by_cases hicl : i ∈ clustered
              · have hins : i ∈ insert j clustered := Finset.mem_insert_of_mem hicl
                simp [List.count_append, hij, hicl, hins]
              · have hins : (i ∈ insert j clustered) ↔ False := by
                  simp [Finset.mem_insert, hij, hicl]
                simp [List.count_append, hij, hicl, hins]

theorem memberCount_append {n : ℕ} (i : Fin n) (xs ys : List (Cluster (Fin n))) :
    memberCount i (xs ++ ys) = memberCount i xs + memberCount i ys := by
  simp [memberCount]

theorem ne_nil_of_count_pos {β : Type} [DecidableEq β] (l : List β) (a : β)
    (h : 0 < l.count a) : l ≠ [] :=
  List.ne_nil_of_mem (List.count_pos_iff.mp h)

theorem dbscanSeedPass_spec {n : ℕ} (G : Geo (Fin n)) (maxD : ℚ) (minPts fuel : ℕ) :
    ∀ (idxs : List (Fin n)) (visited clustered : Finset (Fin n))
      (clusters : List (Cluster (Fin n))),
      clustered ⊆ visited →
      (∀ i, memberCount i clusters = if i ∈ clustered then 1 else 0) →
      (∀ c ∈ clusters, c.points ≠ []) →
      (∀ i, memberCount i
          (dbscanSeedPass G maxD minPts fuel idxs visited clustered clusters).2 =
        if i ∈ (dbscanSeedPass G maxD minPts fuel idxs visited clustered clusters).1
        then 1 else 0) ∧
      (∀ c ∈ (dbscanSeedPass G maxD minPts fuel idxs visited clustered clusters).2,
        c.points ≠ []) := by
  intro idxs
  induction idxs with
  | nil =>
    intro visited clustered clusters hcv hmc hne
    exact ⟨hmc, hne⟩
  | cons i rest ih =>
    intro visited clustered clusters hcv hmc hne
    by_cases hv : i ∈ visited
    · have heq : dbscanSeedPass G maxD minPts fuel (i :: rest) visited clustered clusters =
          dbscanSeedPass G maxD minPts fuel rest visited clustered clusters := by
        simp [dbscanSeedPass, hv]
      rw [heq]
      exact ih visited clustered clusters hcv hmc hne
    · by_cases hsparse : (findNeighbors G maxD i).length < minPts
      · have heq : dbscanSeedPass G maxD minPts fuel (i :: rest) visited clustered clusters =
            dbscanSeedPass G maxD minPts fuel rest (insert i visited) clustered clusters := by
          simp [dbscanSeedPass, hv, hsparse]
        rw [heq]
        exact ih (insert i visited) clustered clusters
          (le_trans hcv (Finset.subset_insert i visited)) hmc hne
      · have hic : i ∉ clustered := fun h => hv (hcv h)
        obtain ⟨he1, he2, he3⟩ := expandCluster_spec G maxD minPts fuel
          (findNeighbors G maxD i) (insert i visited) (insert i clustered) [i]
        have heq : dbscanSeedPass G maxD minPts fuel (i :: rest) visited clustered clusters =
            dbscanSeedPass G maxD minPts fuel rest
              (expandCluster G maxD minPts fuel (findNeighbors G maxD i)
                (insert i visited) (insert i clustered) [i]).1
              (expandCluster G maxD minPts fuel (findNeighbors G maxD i)
                (insert i visited) (insert i clustered) [i]).2.1
              (clusters ++ [⟨(clusters.length : ℤ),
                (expandCluster G maxD minPts fuel (findNeighbors G maxD i)
                  (insert i visited) (insert i clustered) [i]).2.2,
                (expandCluster G maxD minPts fuel (findNeighbors G maxD i)
                  (insert i visited) (insert i clustered) [i]).2.2.length⟩]) := by
          simp [dbscanSeedPass, hv, hsparse]
        rw [heq]
        refine ih _ _ _ (he2 (Finset.insert_subset_insert i hcv)) ?_ ?_
        · intro i0
          rw [memberCount_append]
          have hmc0 : memberCount i0 [(⟨(clusters.length : ℤ),
              (expandCluster G maxD minPts fuel (findNeighbors G maxD i)
                (insert i visited) (insert i clustered) [i]).2.2,
              (expandCluster G maxD minPts fuel (findNeighbors G maxD i)
                (insert i visited) (insert i clustered) [i]).2.2.length⟩ :
              Cluster (Fin n))] =
              (expandCluster G maxD minPts fuel (findNeighbors G maxD i)
                (insert i visited) (insert i clustered) [i]).2.2.count i0 := by
            simp [memberCount]
          rw [hmc0, he3 i0, hmc i0]
          by_cases hi0c : i0 ∈ clustered
          · have h1 : i0 ∈ insert i clustered := Finset.mem_insert_of_mem hi0c
            have h2 : i0 ∈ (expandCluster G maxD minPts fuel (findNeighbors G maxD i)
                (insert i visited) (insert i clustered) [i]).2.1 := he1 h1
            have h3 : i0 ≠ i := fun h => hic (h ▸ hi0c)
            simp [hi0c, h1, h2, h3]
          · by_cases hi0i : i0 = i
            · subst hi0i
              have h2 : i0 ∈ (expandCluster G maxD minPts fuel (findNeighbors G maxD i0)
                  (insert i0 visited) (insert i0 clustered) [i0]).2.1 :=
                he1 (Finset.mem_insert_self i0 clustered)
              simp [hi0c, h2]
            · have h1 : i0 ∉ insert i clustered := by
                simp [Finset.mem_insert, hi0i, hi0c]
              by_cases h2 : i0 ∈ (expandCluster G maxD minPts fuel (findNeighbors G maxD i)
                  (insert i visited) (insert i clustered) [i]).2.1
              · simp [hi0c, h1, h2, hi0i]
              · simp [hi0c, h1, h2, hi0i]
        · intro c hcmem
          rcases List.mem_append.mp hcmem with hcm | hcm
          · exact hne c hcm
          · rw [List.mem_singleton] at hcm
            subst hcm
            refine ne_nil_of_count_pos _ i ?_
            rw [he3 i]
            have : ([i] : List (Fin n)).count i = 1 := by simp
            omega

theorem memberCount_modify_append {n : ℕ} (i0 x : Fin n) :
    ∀ (cs : List (Cluster (Fin n))) (idx : ℕ), idx < cs.length →
      memberCount i0 (cs.modify (fun c => { c with points := c.points ++ [x] }) idx) =
        memberCount i0 cs + ([x] : List (Fin n)).count i0 := by
  intro cs
  induction cs with
  | nil => intro idx h; simp at h
  | cons c tl ih =>
    intro idx h
    cases idx with
    | zero =>
      rw [List.modify_zero_cons]
      simp [memberCount, List.count_append]
      omega
    | succ idx =>
      have heq : (c :: tl).modify (fun c => { c with points := c.points ++ [x] }) (idx + 1) =
          c :: tl.modify (fun c => { c with points := c.points ++ [x] }) idx := rfl
      rw [heq]
      have h2 : memberCount i0 (c :: tl.modify
          (fun c => { c with points := c.points ++ [x] }) idx) =
          c.points.count i0 + memberCount i0 (tl.modify
            (fun c => { c with points := c.points ++ [x] }) idx) := by
        simp [memberCount]
      rw [h2, ih idx (by simp at h; omega)]
      simp [memberCount]
      omega

theorem assignNoisePoint_spec {n : ℕ} (G : Geo (Fin n)) (x : Fin n)
    (clusters : List (Cluster (Fin n)))
    (hne : ∀ c ∈ clusters, c.points ≠ []) :
    ∃ out, assignNoisePoint G x clusters = some out ∧
      (∀ i0, memberCount i0 out = memberCount i0 clusters + ([x] : List (Fin n)).count i0) ∧
      (∀ c ∈ out, c.points ≠ []) := by
  by_cases hemp : clusters.isEmpty
  · have hnil : clusters = [] := List.isEmpty_iff.mp hemp
    subst hnil
    refine ⟨[⟨0, [x], 1⟩], by simp [assignNoisePoint], ?_, ?_⟩
    · intro i0
      simp [memberCount]
    · intro c hcm
      rw [List.mem_singleton] at hcm
      subst hcm
      simp
  · obtain ⟨cts, hcts, hlen⟩ := centersOf_some G clusters hne
    have hcne : clusters ≠ [] := fun h => by
      subst h
      exact hemp rfl
    have hmapne : cts.map (fun c => G.dist (G.coord x) c) ≠ [] := by
      intro hc
      rw [List.map_eq_nil_iff] at hc
      subst hc
      simp at hlen
      exact hcne (List.length_eq_zero.mp hlen.symm)
    obtain ⟨hlt, _⟩ := argminFirst_spec (cts.map (fun c => G.dist (G.coord x) c)) hmapne
    have hlt2 : argminFirst (cts.map (fun c => G.dist (G.coord x) c)) < clusters.length := by
      simp [hlen] at hlt
      exact hlt
    refine ⟨clusters.modify (fun c => { c with points := c.points ++ [x] })
        (argminFirst (cts.map (fun c => G.dist (G.coord x) c))), ?_, ?_, ?_⟩
    · simp [assignNoisePoint, hemp, hcts]
    · intro i0
      exact memberCount_modify_append i0 x clusters _ hlt2
    · exact forall_mem_modify (fun (c : Cluster (Fin n)) => c.points ≠ [])
        (fun c => { c with points := c.points ++ [x] }) hne
        (fun c hc => by simp [hc]) _

theorem dbscanNoisePass_spec {n : ℕ} (G : Geo (Fin n)) (clustered : Finset (Fin n)) :
    ∀ (todo : List (Fin n)) (D : Finset (Fin n)) (clusters : List (Cluster (Fin n))),
      (∀ i, memberCount i clusters = if i ∈ clustered ∨ i ∈ D then 1 else 0) →
      (∀ c ∈ clusters, c.points ≠ []) →
      todo.Nodup → (∀ i ∈ todo, i ∉ D) →
      ∃ out, dbscanNoisePass G clustered todo clusters = some out ∧
        (∀ i, memberCount i out =
          if i ∈ clustered ∨ i ∈ D ∨ i ∈ todo then 1 else 0) ∧
        (∀ c ∈ out, c.points ≠ []) := by
  intro todo
  induction todo with
  | nil =>
    intro D clusters hmc hne _ _
    refine ⟨clusters, rfl, ?_, hne⟩
    intro i
    rw [hmc i]
    simp
  | cons x rest ih =>
    intro D clusters hmc hne hnd hdisj
    obtain ⟨hxrest, hndrest⟩ := List.nodup_cons.mp hnd
    by_cases hxc : x ∈ clustered
    · have heq : dbscanNoisePass G clustered (x :: rest) clusters =
          dbscanNoisePass G clustered rest clusters := by
        simp [dbscanNoisePass, hxc]
      rw [heq]
      obtain ⟨out, ho, hoc, hone⟩ := ih D clusters hmc hne hndrest
        (fun i hi => hdisj i (by simp [hi]))
      refine ⟨out, ho, ?_, hone⟩
      intro i
      rw [hoc i]
      by_cases hix : i = x
      · subst hix
        simp [hxc]
      · simp [List.mem_cons, hix]
    · obtain ⟨mid, hmid, hmidc, hmidne⟩ := assignNoisePoint_spec G x clusters hne
      have heq : dbscanNoisePass G clustered (x :: rest) clusters =
          dbscanNoisePass G clustered rest mid := by
        simp [dbscanNoisePass, hxc, hmid]
      rw [heq]
      have hxD : x ∉ D := hdisj x (by simp)
      have hmcmid : ∀ i, memberCount i mid =
          if i ∈ clustered ∨ i ∈ insert x D then 1 else 0 := by
        intro i
        rw [hmidc i, hmc i]
        by_cases hix : i = x
        · subst hix
          simp [hxc, hxD]
        · simp [Finset.mem_insert, hix]
      obtain ⟨out, ho, hoc, hone⟩ := ih (insert x D) mid hmcmid hmidne hndrest
        (fun i hi => by
          simp [Finset.mem_insert]
          constructor
          · intro hixx
            exact hxrest (hixx ▸ hi)
          · exact hdisj i (by simp [hi]))
      refine ⟨out, ho, ?_, hone⟩
      intro i
      rw [hoc i]
      by_cases hix : i = x
      · subst hix
        simp [Finset.mem_insert]
      · simp [Finset.mem_insert, List.mem_cons, hix]

theorem performDBSCAN_partition {n : ℕ} (G : Geo (Fin n)) (maxD : ℚ)
    (minPts fuel : ℕ) :
    ∃ cs, performDBSCANClustering G maxD minPts fuel = some cs ∧
      (∀ i, memberCount i cs = 1) ∧ (∀ c ∈ cs, c.points ≠ []) := by
  obtain ⟨hs1, hs2⟩ := dbscanSeedPass_spec G maxD minPts fuel (List.finRange n) ∅ ∅ []
    (by simp) (by intro i; simp [memberCount]) (by intro c hc; simp at hc)
  obtain ⟨out, hout, hcount, hne⟩ := dbscanNoisePass_spec G
    (dbscanSeedPass G maxD minPts fuel (List.finRange n) ∅ ∅ []).1
    (List.finRange n) ∅
    (dbscanSeedPass G maxD minPts fuel (List.finRange n) ∅ ∅ []).2
    (by intro i; rw [hs1 i]; simp) hs2 (List.nodup_finRange n)
    (by intro i _; simp)
  refine ⟨out, ?_, ?_, hne⟩
  · unfold performDBSCANClustering
    exact hout
  · intro i
    rw [hcount i]
    simp [List.mem_finRange]

/-- C2: After the Density Clusterer plus its noise-reassignment step
(performDBSCANClustering), every input point belongs to exactly one of the
returned clusters: the clustering always succeeds (for every geometry
oracle, radius, density threshold and flood-fill fuel) and each point
index occurs exactly once over all returned clusters, counted with
multiplicity both across clusters and inside each cluster, so no point is
dropped and none is duplicated. -/
theorem claim_C2 {n : ℕ} (G : Geo (Fin n)) (maxD : ℚ) (minPts fuel : ℕ) :
    ∃ cs, performDBSCANClustering G maxD minPts fuel = some cs ∧
      ∀ i, memberCount i cs = 1 := by
  obtain ⟨cs, h1, h2, _⟩ := performDBSCAN_partition G maxD minPts fuel
  exact ⟨cs, h1, h2⟩

theorem calculateClusterCenter_none_iff (G : Geo α) (pts : List α) :
    calculateClusterCenter G pts = none ↔ pts = [] := by
  cases pts with
  | nil => simp [calculateClusterCenter]
  | cons p tl =>
    cases tl with
    | nil => simp [calculateClusterCenter]
    | cons q tl2 => simp [calculateClusterCenter]

theorem splitCluster_parts_ne_nil (G : Geo α) (k : ℕ) (seeds : List ℕ)
    (c : Cluster α) (parts : List (Cluster α))
    (h : splitCluster G k seeds c = some parts) :
    ∀ p ∈ parts, p.points ≠ [] := by
  unfold splitCluster at h
  by_cases hv : seeds.length = k ∧ seeds.Nodup ∧ ∀ s ∈ seeds, s < c.points.length
  · rw [if_pos hv] at h
    simp only [Option.some.injEq] at h
    intro p hp
    rw [← h] at hp
    rw [List.mem_filterMap] at hp
    obtain ⟨i, _, hi⟩ := hp
    by_cases hie : ((((c.points.zip (kmeansLoop G k c.points 10
        (List.replicate c.points.length 0)
        ((seeds.filterMap (fun s => c.points[s]?)).map G.coord))).filter
          (fun pa => pa.2 = i)).map Prod.fst) : List α).isEmpty
    · rw [if_pos hie] at hi
      exact absurd hi (by simp)
    · rw [if_neg hie] at hi
      rw [Option.some.injEq] at hi
      rw [← hi]
      simpa [List.isEmpty_iff] using hie
  · rw [if_neg hv] at h
    exact absurd h (by simp)

theorem mergeStep_ne_nil (G : Geo α) (s : Cluster α) (rest cs2 : List (Cluster α))
    (h : mergeStep G s rest = some cs2) (hne : ∀ c ∈ rest, c.points ≠ []) :
    ∀ c ∈ cs2, c.points ≠ [] := by
  unfold mergeStep at h
  cases hsc : calculateClusterCenter G s.points with
  | none => rw [hsc] at h; simp at h
  | some sc =>
    rw [hsc] at h
    dsimp only at h
    cases hni : nearestClusterIndex G sc rest with
    | none => rw [hni] at h; simp at h
    | some i =>
      rw [hni] at h
      dsimp only at h
      rw [Option.some.injEq] at h
      rw [← h]
      exact forall_mem_modify (fun (c : Cluster α) => c.points ≠ [])
        (fun c => { c with points := c.points ++ s.points }) hne
        (fun c hc => by simp [hc]) i

theorem mergeLoop_ne_nil (G : Geo α) (target : ℕ) :
    ∀ (fuel : ℕ) (cs out : List (Cluster α)),
      (∀ c ∈ cs, c.points ≠ []) → mergeLoop G target fuel cs = some out →
      ∀ c ∈ out, c.points ≠ [] := by
  intro fuel
  induction fuel with
  | zero =>
    intro cs out hne h
    rw [show mergeLoop G target 0 cs = some cs from rfl, Option.some.injEq] at h
    exact h ▸ hne
  | succ fuel ih =>
    intro cs out hne h
    rw [mergeLoop_succ] at h
    by_cases hlt : target < cs.length
    · rw [if_pos hlt] at h
      cases cs with
      | nil =>
        dsimp only at h
        rw [Option.some.injEq] at h
        rw [← h]
        intro c hc
        exact absurd hc (by simp)
      | cons s rest =>
        dsimp only at h
        by_cases hre : rest.isEmpty
        · rw [if_pos hre, Option.some.injEq] at h
          rw [← h]
          intro c hc
          rw [List.mem_singleton] at hc
          exact hc ▸ hne s (by simp)
        · rw [if_neg hre] at h
          cases hms : mergeStep G s rest with
          | none => rw [hms] at h; exact absurd h (by simp)
          | some cs2 =>
            rw [hms] at h
            dsimp only at h
            exact ih cs2 out
              (mergeStep_ne_nil G s rest cs2 hms
                (fun c hc => hne c (by simp [hc]))) h
    · rw [if_neg hlt, Option.some.injEq] at h
      exact h ▸ hne

theorem perm_sortBySizeDesc (cs : List (Cluster α)) :
    (sortBySizeDesc cs).Perm cs := List.perm_insertionSort _ cs

theorem splitPhase_ok_ne_nil (G : Geo α) (picks : ℕ → List α → List ℕ)
    (target : ℕ) :
    ∀ (fuel ctr : ℕ) (cs out : List (Cluster α)),
      (∀ c ∈ cs, c.points ≠ []) →
      splitPhase G picks target fuel ctr cs = AdjRes.ok out →
      ∀ c ∈ out, c.points ≠ [] := by
  intro fuel
  induction fuel with
  | zero =>
    intro ctr cs out _ h
    exact absurd h (by simp [splitPhase])
  | succ fuel ih =>
    intro ctr cs out hne h
    rw [splitPhase_succ] at h
    by_cases hlt : cs.length < target
    · rw [if_pos hlt] at h
      have hsne : ∀ c ∈ sortBySizeDesc cs, c.points ≠ [] := fun c hc =>
        hne c ((perm_sortBySizeDesc cs).mem_iff.mp hc)
      cases hs : sortBySizeDesc cs with
      | nil => rw [hs] at h; exact absurd h (by simp)
      | cons l rest =>
        rw [hs] at h
        rw [hs] at hsne
        dsimp only at h
        by_cases hl3 : l.points.length < 3
        · rw [if_pos hl3] at h
          rw [AdjRes.ok.injEq] at h
          rw [← h]
          intro c hc
          rw [List.mem_append] at hc
          cases hc with
          | inl hc => exact hsne c (by simp [hc])
          | inr hc =>
            rw [List.mem_singleton] at hc
            exact hc ▸ hsne l (by simp)
        · rw [if_neg hl3] at h
          cases hsp : splitCluster G 2 (picks ctr l.points) l with
          | none => rw [hsp] at h; exact absurd h (by simp)
          | some parts =>
            rw [hsp] at h
            dsimp only at h
            refine ih (ctr + 1) (rest ++ parts) out ?_ h
            intro c hc
            rw [List.mem_append] at hc
            cases hc with
            | inl hc => exact hsne c (by simp [hc])
            | inr hc => exact splitCluster_parts_ne_nil G 2 _ l parts hsp c hc
    · rw [if_neg hlt, AdjRes.ok.injEq] at h
      exact h ▸ hne

theorem renumber_ne_nil (cs : List (Cluster α)) (hne : ∀ c ∈ cs, c.points ≠ []) :
    ∀ c ∈ renumberClusters cs, c.points ≠ [] := by
  intro c hc
  have hmem : c.points ∈ (renumberClusters cs).map Cluster.points :=
    List.mem_map_of_mem Cluster.points hc
  rw [map_points_renumberClusters, List.mem_map] at hmem
  obtain ⟨c2, hc2, he⟩ := hmem
  rw [← he]
  exact hne c2 hc2

theorem adjust_ok_ne_nil (G : Geo α) (picks : ℕ → List α → List ℕ)
    (fuel : ℕ) (clusters : List (Cluster α)) (target : ℕ)
    (out : List (Cluster α))
    (hne : ∀ c ∈ clusters, c.points ≠ [])
    (h : adjustClusterCount G picks fuel clusters target = AdjRes.ok out) :
    ∀ c ∈ out, c.points ≠ [] := by
  unfold adjustClusterCount at h
  dsimp only at h
  have hsne : ∀ c ∈ sortBySizeAsc clusters, c.points ≠ [] := fun c hc =>
    hne c ((perm_sortBySizeAsc clusters).mem_iff.mp hc)
  cases hml : mergeLoop G target (sortBySizeAsc clusters).length
      (sortBySizeAsc clusters) with
  | none => rw [hml] at h; exact absurd h (by simp)
  | some merged =>
    rw [hml] at h
    dsimp only at h
    have hmne : ∀ c ∈ merged, c.points ≠ [] :=
      mergeLoop_ne_nil G target _ _ merged hsne hml
    by_cases hlt : merged.length < target
    · rw [if_pos hlt] at h
      cases hsp : splitPhase G picks target fuel 0 merged with
      | ok final =>
        rw [hsp] at h
        dsimp only at h
        rw [AdjRes.ok.injEq] at h
        rw [← h]
        exact renumber_ne_nil final
          (splitPhase_ok_ne_nil G picks target fuel 0 merged final hmne hsp)
      | err => rw [hsp] at h; exact absurd h (by simp)
      | diverge => rw [hsp] at h; exact absurd h (by simp)
    · rw [if_neg hlt, AdjRes.ok.injEq] at h
      rw [← h]
      exact renumber_ne_nil merged hmne

/-- C10: calculateClusterCenter fails (throws, embedded as none) exactly on
an empty points array, and the pipeline never feeds it one: every cluster
returned by performDBSCANClustering has nonempty points, every sub-cluster
returned by splitCluster has nonempty points (empty ones are filtered out),
and adjustClusterCount maps clusters with nonempty points to clusters with
nonempty points on every successful run, so the error branch is unreachable
from pipeline-produced clusters. -/
theorem claim_C10 (G : Geo α) (picks : ℕ → List α → List ℕ) :
    (∀ pts : List α, calculateClusterCenter G pts = none ↔ pts = []) ∧
    (∀ {n : ℕ} (Gn : Geo (Fin n)) (maxD : ℚ) (minPts fuel : ℕ)
      (cs : List (Cluster (Fin n))),
      performDBSCANClustering Gn maxD minPts fuel = some cs →
      ∀ c ∈ cs, c.points ≠ []) ∧
    (∀ (k : ℕ) (seeds : List ℕ) (c : Cluster α) (parts : List (Cluster α)),
      splitCluster G k seeds c = some parts → ∀ p ∈ parts, p.points ≠ []) ∧
    (∀ (fuel : ℕ) (clusters : List (Cluster α)) (target : ℕ)
      (out : List (Cluster α)),
      (∀ c ∈ clusters, c.points ≠ []) →
      adjustClusterCount G picks fuel clusters target = AdjRes.ok out →
      ∀ c ∈ out, c.points ≠ []) := by
  refine ⟨calculateClusterCenter_none_iff G, ?_, ?_, ?_⟩
  · intro n Gn maxD minPts fuel cs h
    obtain ⟨cs2, h2, _, hne⟩ := performDBSCAN_partition Gn maxD minPts fuel
    rw [h] at h2
    rw [Option.some.injEq] at h2
    exact h2 ▸ hne
  · exact splitCluster_parts_ne_nil G
  · intro fuel clusters target out hne h
    exact adjust_ok_ne_nil G picks fuel clusters target out hne h

theorem claim_C10_witness :
    ({ id := 0, points := [pA], size := 1 } : Cluster Pt).points ≠ [] :=
  (claim_C10 G0 picks0).2.2.2 1 [{ id := 0, points := [pA], size := 1 }] 1
    [{ id := 0, points := [pA], size := 1 }] (by decide) (by decide)
    { id := 0, points := [pA], size := 1 } (by decide)

theorem addLoop_succ (target fuel : ℕ) (zs : List (ℕ × ℕ)) :
    addLoop target (fuel + 1) zs =
      if quotaSum zs < target then
        match pickAddIdx zs with
        | none => zs
        | some i => addLoop target fuel (zs.modify (fun z => (z.1, z.2 + 1)) i)
      else zs := rfl

theorem removeLoop_succ (target fuel : ℕ) (zs : List (ℕ × ℕ)) :
    removeLoop target (fuel + 1) zs =
      if target < quotaSum zs then
        match pickRemoveIdx zs with
        | none => zs
        | some i => removeLoop target fuel (zs.modify (fun z => (z.1, z.2 - 1)) i)
      else zs := rfl

theorem initialQuota_cap_one (t total : ℕ) (ts : ℝ) (p : ℕ) (hp : 1 ≤ p)
    (hcap : zoneCap p = 1) : initialQuota t total ts p = 1 := by
  unfold initialQuota
  dsimp only
  rw [hcap, if_pos hp]
  exact min_eq_right (le_max_right _ 1)

theorem nine_rpow_bounds :
    3 < (9 : ℝ) ^ ((0.7 : ℝ)) ∧ (9 : ℝ) ^ ((0.7 : ℝ)) < 17 / 3 := by
  have h9 : (0 : ℝ) ≤ 9 := by norm_num
  have hx : (0 : ℝ) ≤ (9 : ℝ) ^ ((0.7 : ℝ)) := Real.rpow_nonneg h9 _
  have hpow : ((9 : ℝ) ^ ((0.7 : ℝ))) ^ (10 : ℕ) = 4782969 := by
    rw [← Real.rpow_natCast ((9 : ℝ) ^ ((0.7 : ℝ))) 10, ← Real.rpow_mul h9]
    have hc : ((0.7 : ℝ) * ((10 : ℕ) : ℝ)) = ((7 : ℕ) : ℝ) := by push_cast; norm_num
    rw [hc, Real.rpow_natCast]
    norm_num
  constructor
  · have h : (3 : ℝ) ^ (10 : ℕ) < ((9 : ℝ) ^ ((0.7 : ℝ))) ^ (10 : ℕ) := by
      rw [hpow]; norm_num
    exact lt_of_pow_lt_pow_left₀ 10 hx h
  · have h : ((9 : ℝ) ^ ((0.7 : ℝ))) ^ (10 : ℕ) < ((17 : ℝ) / 3) ^ (10 : ℕ) := by
      rw [hpow]; norm_num
    exact lt_of_pow_lt_pow_left₀ 10 (by norm_num) h

theorem zoneScore_ninety (k : ℕ) (hk : 1 ≤ k) :
    zoneScore (9 * k) (9 * k + k) =
      ((9 : ℝ) ^ ((0.7 : ℝ))) * ((10 : ℝ) ^ ((0.7 : ℝ)) * 100) ∧
    zoneScore k (9 * k + k) = (10 : ℝ) ^ ((0.7 : ℝ)) * 100 := by
  have hkpos : (0 : ℝ) < (k : ℝ) := by exact_mod_cast (by omega : 0 < k)
  have hd : (0 : ℝ) < 9 * (k : ℝ) + (k : ℝ) := by linarith
  have h1 : (100 * (((9 * k : ℕ)) : ℝ) / (((9 * k + k : ℕ)) : ℝ)) = 90 := by
    push_cast
    rw [div_eq_iff hd.ne.symm]
    ring
  have h2 : (100 * ((k : ℕ) : ℝ) / (((9 * k + k : ℕ)) : ℝ)) = 10 := by
    push_cast
    rw [div_eq_iff hd.ne.symm]
    ring
  constructor
  · unfold zoneScore
    rw [h1, show (90 : ℝ) = 9 * 10 by norm_num,
      Real.mul_rpow (by norm_num) (by norm_num)]
    ring
  · unfold zoneScore
    rw [h2]

theorem round_ratio_dominant (t u : ℝ) (h3 : 3 < t) (h17 : t < 17 / 3)
    (hu : 0 < u) : round (t * u / (t * u + u) * ((10 : ℕ) : ℝ)) = 8 := by
  have ht1 : (0 : ℝ) < t + 1 := by linarith
  have he : t * u / (t * u + u) * ((10 : ℕ) : ℝ) = 10 * t / (t + 1) := by
    rw [show t * u + u = (t + 1) * u by ring]
    push_cast
    field_simp
    ring
  rw [he, round_eq, Int.floor_eq_iff]
  have hlow : (15 : ℝ) / 2 < 10 * t / (t + 1) := by
    rw [lt_div_iff₀ ht1]
    nlinarith
  have hhigh : 10 * t / (t + 1) < 17 / 2 := by
    rw [div_lt_iff₀ ht1]
    nlinarith
  constructor
  · push_cast
    linarith
  · push_cast
    linarith

theorem round_ratio_minor (t u : ℝ) (h3 : 3 < t) (h17 : t < 17 / 3)
    (hu : 0 < u) : round (u / (t * u + u) * ((10 : ℕ) : ℝ)) = 2 := by
  have ht1 : (0 : ℝ) < t + 1 := by linarith
  have he : u / (t * u + u) * ((10 : ℕ) : ℝ) = 10 / (t + 1) := by
    rw [show t * u + u = (t + 1) * u by ring]
    push_cast
    field_simp
    ring
  rw [he, round_eq, Int.floor_eq_iff]
  have hlow : (3 : ℝ) / 2 < 10 / (t + 1) := by
    rw [lt_div_iff₀ ht1]
    nlinarith
  have hhigh : 10 / (t + 1) < 5 / 2 := by
    rw [div_lt_iff₀ ht1]
    nlinarith
  constructor
  · push_cast
    linarith
  · push_cast
    linarith

theorem initialQuota_ninety_dominant (k : ℕ) (hk : 1 ≤ k) :
    initialQuota 10 (9 * k + k)
      (zoneScore (9 * k) (9 * k + k) + zoneScore k (9 * k + k)) (9 * k) =
      min 8 (zoneCap (9 * k)) := by
  obtain ⟨hs9, hsk⟩ := zoneScore_ninety k hk
  obtain ⟨h3, h17⟩ := nine_rpow_bounds
  have hu : (0 : ℝ) < (10 : ℝ) ^ ((0.7 : ℝ)) * 100 := by
    have := Real.rpow_pos_of_pos (show (0 : ℝ) < 10 by norm_num) ((0.7 : ℝ))
    linarith
  unfold initialQuota
  dsimp only
  rw [hs9, hsk, round_ratio_dominant _ _ h3 h17 hu,
    if_pos (show 1 ≤ 9 * k by omega)]
  norm_num [Int.toNat_ofNat]
  rfl

theorem initialQuota_ninety_minor (k : ℕ) (hk : 1 ≤ k) :
    initialQuota 10 (9 * k + k)
      (zoneScore (9 * k) (9 * k + k) + zoneScore k (9 * k + k)) k =
      min 2 (zoneCap k) := by
  obtain ⟨hs9, hsk⟩ := zoneScore_ninety k hk
  obtain ⟨h3, h17⟩ := nine_rpow_bounds
  have hu : (0 : ℝ) < (10 : ℝ) ^ ((0.7 : ℝ)) * 100 := by
    have := Real.rpow_pos_of_pos (show (0 : ℝ) < 10 by norm_num) ((0.7 : ℝ))
    linarith
  unfold initialQuota
  dsimp only
  rw [hs9, hsk, round_ratio_minor _ _ h3 h17 hu, if_pos hk]
  norm_num [Int.toNat_ofNat]
  rfl

/-- C3: counterexample.  A 90/10 climate split with targetRegions = 10 on
the zone point counts [9, 1]: both zones have density cap
ceil(points/30) = 1, so both initial quotas are capped at 1, the
reconciliation loop finds no zone below its cap to absorb the shortfall,
and the allocation is [1, 1] — the dominant zone does NOT receive strictly
more regions than the minor zone, refuting the claimed scenario as stated
(it holds only when the dominant zone has enough points for its cap to
exceed 1). -/
theorem claim_C3_counterexample : allocateZoneQuotas 10 [9, 1] = [1, 1] := by
  unfold allocateZoneQuotas
  dsimp only
  simp only [List.map_cons, List.map_nil, List.sum_cons, List.sum_nil, add_zero]
  rw [initialQuota_cap_one 10 (9 + 1) _ 9 (by omega) (by decide),
    initialQuota_cap_one 10 (9 + 1) _ 1 (by omega) (by decide)]
  have hadd : addLoop 10 (10 + 1) [(9, 1), (1, 1)] = [(9, 1), (1, 1)] := by decide
  rw [hadd]
  decide

/-- C3: amended.  Modelled from the spec (the repository contains no zone
quota implementation).  For a 90/10 two-zone split given by point counts
[9k, k] with k at least 4 and targetRegions = 10, the Zone Allocator gives
the dominant zone strictly more regions than the minor zone and the minor
zone at least 1: the score ratio is 9^0.7, strictly between 3 and 17/3, so
the rounded proportional quotas are 8 and 2 before capping, and the density
caps (which force the counterexample below k = 4) now leave the dominant
zone at least 2 while the minor zone keeps at least 1. -/
theorem claim_C3_amended (k : ℕ) (hk : 4 ≤ k) :
    ∃ q1 q2, allocateZoneQuotas 10 [9 * k, k] = [q1, q2] ∧ q2 < q1 ∧ 1 ≤ q2 := by
  have hk1 : 1 ≤ k := by omega
  unfold allocateZoneQuotas
  dsimp only
  simp only [List.map_cons, List.map_nil, List.sum_cons, List.sum_nil, add_zero]
  rw [initialQuota_ninety_dominant k hk1, initialQuota_ninety_minor k hk1]
  by_cases hk30 : k ≤ 30
  · have hc2 : zoneCap k = 1 := by unfold zoneCap; omega
    have hc1lo : 2 ≤ zoneCap (9 * k) := by unfold zoneCap; omega
    have hc1hi : zoneCap (9 * k) ≤ 9 := by unfold zoneCap; omega
    rw [hc2, show min 2 1 = 1 by norm_num]
    by_cases hc18 : zoneCap (9 * k) ≤ 8
    · rw [min_eq_right hc18]
      have hpick : pickAddIdx [(9 * k, zoneCap (9 * k)), (k, 1)] = none := by
        unfold pickAddIdx
        simp [List.enum, List.enumFrom, List.filter, hc2]
      have hqs : quotaSum [(9 * k, zoneCap (9 * k)), (k, 1)] =
          zoneCap (9 * k) + 1 := by simp [quotaSum]
      have hadd : addLoop 10 (10 + 1) [(9 * k, zoneCap (9 * k)), (k, 1)] =
          [(9 * k, zoneCap (9 * k)), (k, 1)] := by
        rw [addLoop_succ, if_pos (by rw [hqs]; omega), hpick]
      rw [hadd]
      have hrem : removeLoop 10
          (quotaSum [(9 * k, zoneCap (9 * k)), (k, 1)] + 1)
          [(9 * k, zoneCap (9 * k)), (k, 1)] =
          [(9 * k, zoneCap (9 * k)), (k, 1)] := by
        rw [hqs, removeLoop_succ, if_neg (by rw [hqs]; omega)]
      rw [hrem]
      exact ⟨zoneCap (9 * k), 1, by simp, by omega, by omega⟩
    · have hc19 : zoneCap (9 * k) = 9 := by omega
      rw [hc19, show min 8 9 = 8 by norm_num]
      have hpick : pickAddIdx [(9 * k, 8), (k, 1)] = some 0 := by
        unfold pickAddIdx
        simp [List.enum, List.enumFrom, List.filter, hc2, hc19,
          argmaxFirst, argmaxFirstAux]
      have hadd : addLoop 10 (10 + 1) [(9 * k, 8), (k, 1)] =
          [(9 * k, 9), (k, 1)] := by
        rw [addLoop_succ, if_pos (by simp [quotaSum]), hpick]
        dsimp only
        have hmod : ([(9 * k, 8), (k, 1)] : List (ℕ × ℕ)).modify
            (fun z => (z.1, z.2 + 1)) 0 = [(9 * k, 9), (k, 1)] := by
          rw [List.modify_zero_cons]
        rw [hmod, show (10 : ℕ) = 9 + 1 from rfl, addLoop_succ,
          if_neg (by simp [quotaSum])]
      rw [hadd]
      have hrem : removeLoop 10 (quotaSum [(9 * k, 9), (k, 1)] + 1)
          [(9 * k, 9), (k, 1)] = [(9 * k, 9), (k, 1)] := by
        rw [removeLoop_succ, if_neg (by simp [quotaSum])]
      rw [hrem]
      exact ⟨9, 1, by simp, by omega, by omega⟩
  · have hc2 : 2 ≤ zoneCap k := by unfold zoneCap; omega
    have hc1 : 9 ≤ zoneCap (9 * k) := by unfold zoneCap; omega
    rw [min_eq_left hc2, min_eq_left (by omega : (8 : ℕ) ≤ zoneCap (9 * k))]
    have hadd : addLoop 10 (10 + 1) [(9 * k, 8), (k, 2)] =
        [(9 * k, 8), (k, 2)] := by
      rw [addLoop_succ, if_neg (by simp [quotaSum])]
    rw [hadd]
    have hrem : removeLoop 10 (quotaSum [(9 * k, 8), (k, 2)] + 1)
        [(9 * k, 8), (k, 2)] = [(9 * k, 8), (k, 2)] := by
      rw [removeLoop_succ, if_neg (by simp [quotaSum])]
    rw [hrem]
    exact ⟨8, 2, by simp, by omega, by omega⟩

theorem claim_C3_witness :
    4 ≤ 4 ∧ ∃ q1 q2, allocateZoneQuotas 10 [9 * 4, 4] = [q1, q2] ∧
      q2 < q1 ∧ 1 ≤ q2 :=
  ⟨by omega, claim_C3_amended 4 (by omega)⟩

end FourNiner
